import Mathlib

/-! Lineage extraction of `sql.parser.go`

A shallow embedding of the walk that `SQLParser.DoParser` performs over the
syntax tree of `github.com/xwb1989/sqlparser`, and of the text replacements
of `cleanSql`, with theorems about the tables, columns and alias-map entries
the walk records and about the text and placeholder map `cleanSql` leaves.

The visit routines mutate `sp.result` in place; here each of them is a
function from the result before the call to the result after it.  Writes to
`kitgo.ErrorLog` go to an external sink and are not part of the result.
-/

namespace SqlParser

/-! ## Syntax tree of the grammar parser -/

/-- Go `sqlparser.TableName`: a table name with its schema qualifier. -/
structure TableName where
  Name : String
  Qualifier : String
  deriving DecidableEq, Repr

/-- Go `sqlparser.ColName`: a column name with its table qualifier. -/
structure ColName where
  Name : String
  Qualifier : String
  deriving DecidableEq, Repr

/-- Go `sqlparser.IndexHints`: the `USE/IGNORE/FORCE INDEX` part of a table. -/
structure IndexHints where
  Kind : String
  Indexes : List String
  deriving DecidableEq, Repr

mutual

/-- Go `sqlparser.Expr` (the union of `BoolExpr` and `ValExpr`). -/
inductive Expr where
  | andExpr (left right : Expr)
  | orExpr (left right : Expr)
  | notExpr (e : Expr)
  | parenBoolExpr (e : Expr)
  | comparisonExpr (operator : String) (left right : Expr)
  | rangeCond (operator : String) (left lo hi : Expr)
  | nullCheck (operator : String) (e : Expr)
  | existsExpr (sub : SelectStatement)
  | strVal (s : String)
  | numVal (s : String)
  | valArg (s : String)
  | nullVal
  | colName (c : ColName)
  | valTuple (vals : List Expr)
  | subquery (sel : SelectStatement)
  | listArg (s : String)
  | binaryExpr (operator : Char) (left right : Expr)
  | unaryExpr (operator : Char) (e : Expr)
  | funcExpr (name : String) (distinct : Bool) (exprs : List SelectExpr)
  | caseExpr (expr : Option Expr) (whens : List When) (els : Option Expr)

/-- Go `sqlparser.When`: one `WHEN cond THEN val` branch. -/
inductive When where
  | mk (cond val : Expr)

/-- Go `sqlparser.SelectExpr`: `*StarExpr` or `*NonStarExpr`. -/
inductive SelectExpr where
  | starExpr (tableName : String)
  | nonStarExpr (expr : Expr) (As : String)

/-- Go `sqlparser.TableExpr`: the three kinds the grammar produces. -/
inductive TableExpr where
  | aliasedTableExpr (expr : SimpleTableExpr) (As : String) (hints : Option IndexHints)
  | parenTableExpr (expr : TableExpr)
  | joinTableExpr (leftExpr : TableExpr) (join : String) (rightExpr : TableExpr)
      (On : Option Expr)

/-- Go `sqlparser.SimpleTableExpr`: `*TableName` or `*Subquery`. -/
inductive SimpleTableExpr where
  | tableName (t : TableName)
  | subquery (sel : SelectStatement)

/-- Go `sqlparser.Order`: one `ORDER BY` item. -/
inductive Order where
  | mk (expr : Expr) (direction : String)

/-- Go `sqlparser.Limit`. -/
inductive Limit where
  | mk (offset : Option Expr) (rowcount : Expr)

/-- Go `sqlparser.Select`. -/
inductive Select where
  | mk (comments : List String) (distinct : String) (selectExprs : List SelectExpr)
      (From : List TableExpr) (Where : Option Expr) (groupBy : List Expr)
      (having : Option Expr) (orderBy : List Order) (limit : Option Limit)
      (lock : String)

/-- Go `sqlparser.Union`. -/
inductive Union where
  | mk (kind : String) (left right : SelectStatement)

/-- Go `sqlparser.SelectStatement`: `*Select` or `*Union`. -/
inductive SelectStatement where
  | select (s : Select)
  | union (u : Union)

end

/-- The field `From` of a `Select` node. -/
def Select.From : Select → List TableExpr
  | Select.mk _ _ _ From _ _ _ _ _ _ => From

/-- The field `SelectExprs` of a `Select` node. -/
def Select.SelectExprs : Select → List SelectExpr
  | Select.mk _ _ selectExprs _ _ _ _ _ _ _ => selectExprs

/-- Go `sqlparser.UpdateExpr`: one `name = expr` assignment. -/
structure UpdateExpr where
  Name : ColName
  Expr : Expr

/-- Go `sqlparser.InsertRows`: a source query or a `VALUES` list. -/
inductive InsertRows where
  | select (s : SelectStatement)
  | values (rows : List Expr)

/-- Go `sqlparser.Insert`. -/
structure Insert where
  Comments : List String
  Table : TableName
  Columns : List SelectExpr
  Rows : InsertRows
  OnDup : List UpdateExpr

/-- Go `sqlparser.Update`. -/
structure Update where
  Comments : List String
  Table : TableName
  Exprs : List UpdateExpr
  Where : Option Expr
  OrderBy : List Order
  Limit : Option Limit

/-- Go `sqlparser.Delete`. -/
structure Delete where
  Comments : List String
  Table : TableName
  Where : Option Expr
  OrderBy : List Order
  Limit : Option Limit

/-- Go `sqlparser.Statement`: the root kinds `sqlparser.Parse` can return. -/
inductive Statement where
  | select (s : Select)
  | union (u : Union)
  | insert (i : Insert)
  | update (u : Update)
  | delete (d : Delete)
  | set (comments : List String) (exprs : List UpdateExpr)
  | ddl (action table newName : String)
  | other

/-! ## Result model -/

/-- The statement kinds `SQL_TYPE_SELECT`, `SQL_TYPE_UNION`, `SQL_TYPE_INSERT`,
`SQL_TYPE_UPDATE`, `SQL_TYPE_DEL`. -/
inductive SqlType where
  | SQL_TYPE_SELECT
  | SQL_TYPE_UNION
  | SQL_TYPE_INSERT
  | SQL_TYPE_UPDATE
  | SQL_TYPE_DEL
  deriving DecidableEq, Repr

/-- One recorded table: owning schema, name, alias. -/
structure TableRef where
  schema : String
  name : String
  aliasName : String
  deriving DecidableEq, Repr

/-- One recorded column: name, alias, qualifier. -/
structure ColumnRef where
  name : String
  aliasName : String
  qualifier : String
  deriving DecidableEq, Repr

/-- Modelled from the spec: the type `SQLParserResult` is declared outside
`sql.parser.go`.  It holds the statement kind (unset until dispatch), the
ordered tables, the ordered columns and the alias map. -/
structure SQLParserResult where
  sqlType : Option SqlType
  tables : List TableRef
  columns : List ColumnRef
  aliasMap : String → Option String

/-- Modelled from the spec: `NewSQLparserResult` is declared outside
`sql.parser.go`; the result is created empty. -/
def NewSQLparserResult : SQLParserResult :=
  { sqlType := none, tables := [], columns := [], aliasMap := fun _ => none }

namespace SQLParserResult

/-- Modelled from the spec: `AddTable` is declared outside `sql.parser.go`; it
appends one `TableRef` to the ordered tables. -/
def AddTable (r : SQLParserResult) (dbOwner tableName aliasName : String) : SQLParserResult :=
  { r with tables := r.tables ++ [{ schema := dbOwner, name := tableName, aliasName := aliasName }] }

/-- Modelled from the spec: `AddCol` is declared outside `sql.parser.go`; it
appends one `ColumnRef` to the ordered columns. -/
def AddCol (r : SQLParserResult) (name aliasName qualifier : String) : SQLParserResult :=
  { r with columns := r.columns ++ [{ name := name, aliasName := aliasName, qualifier := qualifier }] }

/-- Modelled from the spec: `AddTableAlias` is declared outside
`sql.parser.go`.  When there is an incoming alias context it records the entry
new alias → incoming alias, a later write for the same key replacing the
earlier one; with no incoming alias context nothing is recorded. -/
def AddTableAlias (r : SQLParserResult) (newAlias parentAlias : String) : SQLParserResult :=
  if parentAlias = "" then r
  else { r with aliasMap := fun k => if k = newAlias then some parentAlias else r.aliasMap k }

end SQLParserResult

/-! ## The walk -/

/-- Go `visitSimpleTable`: records the target table of a write statement. -/
def visitSimpleTable (table : TableName) (aliasName : String) (r : SQLParserResult) :
    SQLParserResult :=
  let dbOwner := table.Qualifier
  let tableName := table.Name
  r.AddTable dbOwner tableName aliasName

/-- Go `visitValExp`: a nil expression returns at once, a `*BinaryExpr` is
skipped, any other kind is only written to the error log. -/
def visitValExp (exp : Option Expr) (r : SQLParserResult) : SQLParserResult :=
  match exp with
  | none => r
  | some (Expr.binaryExpr _ _ _) => r
  | some _ => r

mutual

/-- Go `visitExpr`, the projection visitor. -/
def visitExpr : SelectExpr → SQLParserResult → SQLParserResult
  | SelectExpr.nonStarExpr (Expr.colName c) As, r => r.AddCol c.Name As c.Qualifier
  | SelectExpr.nonStarExpr (Expr.funcExpr _ _ exprs) _, r => visitExprs exprs r
  | SelectExpr.nonStarExpr (Expr.valTuple vals) _, r =>
      vals.foldl (fun acc v => visitValExp (some v) acc) r
  | SelectExpr.nonStarExpr (Expr.caseExpr expr _ els) _, r =>
      visitValExp expr (visitValExp els r)
  | SelectExpr.nonStarExpr (Expr.strVal _) _, r => r
  | SelectExpr.nonStarExpr (Expr.numVal _) _, r => r
  | SelectExpr.nonStarExpr (Expr.binaryExpr _ _ _) _, r => r
  | SelectExpr.nonStarExpr _ _, r => r
  | SelectExpr.starExpr tableName, r => r.AddCol "*" "*" tableName

/-- The loop `for _, e := range exprs { sp.visitExpr(e) }`. -/
def visitExprs : List SelectExpr → SQLParserResult → SQLParserResult
  | [], r => r
  | e :: es, r => visitExprs es (visitExpr e r)

end

mutual

/-- Go `visitQuery`. -/
def visitQuery : SelectStatement → String → SQLParserResult → SQLParserResult
  | SelectStatement.select s, nodeAlias, r => visitSelect s nodeAlias r
  | SelectStatement.union u, nodeAlias, r => visitUnion u nodeAlias r

/-- Go `visitUnion`. -/
def visitUnion : Union → String → SQLParserResult → SQLParserResult
  | Union.mk _ left right, nodeAlias, r =>
      visitQuery right nodeAlias (visitQuery left nodeAlias r)

/-- Go `visitSelect`: first the tables of `FROM`, then the projection list. -/
def visitSelect : Select → String → SQLParserResult → SQLParserResult
  | Select.mk _ _ selectExprs From _ _ _ _ _ _, nodeAlias, r =>
      visitExprs selectExprs (visitForms From nodeAlias r)

/-- The loop `for _, table := range node.From { sp.visitForm(table, nodeAlias) }`. -/
def visitForms : List TableExpr → String → SQLParserResult → SQLParserResult
  | [], _, r => r
  | t :: ts, nodeAlias, r => visitForms ts nodeAlias (visitForm t nodeAlias r)

/-- Go `visitForm`, the table-expression visitor. -/
def visitForm : TableExpr → String → SQLParserResult → SQLParserResult
  | TableExpr.parenTableExpr expr, nodeAlias, r => visitForm expr nodeAlias r
  | TableExpr.joinTableExpr leftExpr _ rightExpr _, nodeAlias, r =>
      visitForm rightExpr nodeAlias (visitForm leftExpr nodeAlias r)
  | TableExpr.aliasedTableExpr expr As _, nodeAlias, r =>
      let newNodeAlias := As
      if newNodeAlias ≠ "" then
        visitTable expr newNodeAlias (r.AddTableAlias newNodeAlias nodeAlias)
      else
        visitTable expr nodeAlias r

/-- Go `visitTable`. -/
def visitTable : SimpleTableExpr → String → SQLParserResult → SQLParserResult
  | SimpleTableExpr.tableName t, aliasName, r =>
      let dbOwner := t.Qualifier
      let tableName := t.Name
      r.AddTable dbOwner tableName aliasName
  | SimpleTableExpr.subquery sel, aliasName, r => visitQuery sel aliasName r

end

/-- Go `visitInsert`: the target table, then each target column as a projection. -/
def visitInsert (node : Insert) (r : SQLParserResult) : SQLParserResult :=
  visitExprs node.Columns (visitSimpleTable node.Table "" r)

/-- Go `visitUpdate`: the target table, then one column per assignment. -/
def visitUpdate (node : Update) (r : SQLParserResult) : SQLParserResult :=
  node.Exprs.foldl (fun acc column => acc.AddCol column.Name.Name "" column.Name.Qualifier)
    (visitSimpleTable node.Table "" r)

/-- Go `visitDelete`: the target table only. -/
def visitDelete (node : Delete) (r : SQLParserResult) : SQLParserResult :=
  visitSimpleTable node.Table "" r

/-! ## The parser object and `DoParser` -/

/-- Go `SQLParser`: the (cleaned) SQL text, the placeholder map and the result
the visit routines write to. -/
structure SQLParser where
  sql : String
  chineseFieldMap : String → Option String
  result : SQLParserResult

/-- The text `reflect.TypeOf(ast)` prints for a root statement. -/
def typeOf : Statement → String
  | Statement.select _ => "*sqlparser.Select"
  | Statement.union _ => "*sqlparser.Union"
  | Statement.insert _ => "*sqlparser.Insert"
  | Statement.update _ => "*sqlparser.Update"
  | Statement.delete _ => "*sqlparser.Delete"
  | Statement.set _ _ => "*sqlparser.Set"
  | Statement.ddl _ _ _ => "*sqlparser.DDL"
  | Statement.other => "*sqlparser.Other"

/-- What a call of `DoParser` gives back: the returned pair `(result, err)`,
each `none` for Go `nil`, and the parser object after the call. -/
structure DoParserOutcome where
  result : Option SQLParserResult
  err : Option String
  sp : SQLParser

/-- Go `DoParser`.  The grammar parser `sqlparser.Parse` is the parameter
`parse`.  The returned result is the value of `sp.result` at the return. -/
def DoParser (parse : String → Except String Statement) (sp : SQLParser) : DoParserOutcome :=
  match parse sp.sql with
  | Except.error err => { result := none, err := some err, sp := sp }
  | Except.ok ast =>
    match ast with
    | Statement.select node =>
        let sp1 := { sp with result := { sp.result with sqlType := some SqlType.SQL_TYPE_SELECT } }
        let sp2 := { sp1 with result := visitSelect node "" sp1.result }
        { result := some sp2.result, err := none, sp := sp2 }
    | Statement.union node =>
        let sp1 := { sp with result := { sp.result with sqlType := some SqlType.SQL_TYPE_UNION } }
        let sp2 := { sp1 with result := visitUnion node "" sp1.result }
        { result := some sp2.result, err := none, sp := sp2 }
    | Statement.insert node =>
        let sp1 := { sp with result := { sp.result with sqlType := some SqlType.SQL_TYPE_INSERT } }
        let sp2 := { sp1 with result := visitInsert node sp1.result }
        { result := some sp2.result, err := none, sp := sp2 }
    | Statement.update node =>
        let sp1 := { sp with result := { sp.result with sqlType := some SqlType.SQL_TYPE_UPDATE } }
        let sp2 := { sp1 with result := visitUpdate node sp1.result }
        { result := some sp2.result, err := none, sp := sp2 }
    | Statement.delete node =>
        let sp1 := { sp with result := { sp.result with sqlType := some SqlType.SQL_TYPE_DEL } }
        let sp2 := { sp1 with result := visitDelete node sp1.result }
        { result := some sp2.result, err := none, sp := sp2 }
    | _ => { result := none, err := some ("不支持类型 => " ++ typeOf ast), sp := sp }

/-- The five root kinds `DoParser` dispatches on. -/
def Statement.isSupported : Statement → Bool
  | Statement.select _ => true
  | Statement.union _ => true
  | Statement.insert _ => true
  | Statement.update _ => true
  | Statement.delete _ => true
  | _ => false

/-! ## Reference description of the recorded tables -/

/-- The alias in scope at a leaf: the innermost non-empty `AS` alias among the
aliases met on the way down (outermost first), or the incoming context `c`
when there is none. -/
def innermostAlias (path : List String) (c : String) : String :=
  ((path.filter (fun a => a ≠ "")).getLast?).getD c

mutual

/-- Plain table-name leaves under a statement, left to right, each with the
`AS` aliases on the way from the statement down to it (outermost first). -/
def leavesQuery : SelectStatement → List (TableName × List String)
  | SelectStatement.select s => leavesSelect s
  | SelectStatement.union u => leavesUnion u

/-- Leaves of the left branch, then leaves of the right branch. -/
def leavesUnion : Union → List (TableName × List String)
  | Union.mk _ left right => leavesQuery left ++ leavesQuery right

/-- Leaves under the `FROM` clause of a `SELECT`. -/
def leavesSelect : Select → List (TableName × List String)
  | Select.mk _ _ _ From _ _ _ _ _ _ => leavesForms From

/-- Leaves under a list of table expressions, left to right. -/
def leavesForms : List TableExpr → List (TableName × List String)
  | [] => []
  | t :: ts => leavesForm t ++ leavesForms ts

/-- Leaves under one table expression. -/
def leavesForm : TableExpr → List (TableName × List String)
  | TableExpr.parenTableExpr expr => leavesForm expr
  | TableExpr.joinTableExpr leftExpr _ rightExpr _ => leavesForm leftExpr ++ leavesForm rightExpr
  | TableExpr.aliasedTableExpr expr As _ =>
      (leavesTable expr).map (fun p => (p.1, As :: p.2))

/-- Leaves under a simple table expression: the table itself, or the leaves
of the subquery body. -/
def leavesTable : SimpleTableExpr → List (TableName × List String)
  | SimpleTableExpr.tableName t => [(t, [])]
  | SimpleTableExpr.subquery sel => leavesQuery sel

end

/-- The `TableRef` the reference description gives a leaf under context `c`. -/
def leafRef (c : String) (p : TableName × List String) : TableRef :=
  { schema := p.1.Qualifier, name := p.1.Name, aliasName := innermostAlias p.2 c }

/-- Reference tables list of a `SELECT` or `UNION` under alias context `c`. -/
def referenceTables (s : SelectStatement) (c : String) : List TableRef :=
  (leavesQuery s).map (leafRef c)

/-! ## Example statements

Syntax trees of the statements used as examples, as the grammar parser builds
them. -/

/-- A `SELECT` with only a projection list and a `FROM` clause. -/
def simpleSelect (selectExprs : List SelectExpr) (From : List TableExpr) : Select :=
  Select.mk [] "" selectExprs From none [] none [] none ""

/-- A plain column projection `qualifier.name` without `AS`. -/
def col (qualifier name : String) : SelectExpr :=
  SelectExpr.nonStarExpr (Expr.colName { Name := name, Qualifier := qualifier }) ""

/-- A plain table `name` with alias `As` in a `FROM` clause. -/
def tbl (name As : String) : TableExpr :=
  TableExpr.aliasedTableExpr (SimpleTableExpr.tableName { Name := name, Qualifier := "" }) As none

/-- A derived table `(sel) As` in a `FROM` clause. -/
def derived (sel : Select) (As : String) : TableExpr :=
  TableExpr.aliasedTableExpr (SimpleTableExpr.subquery (SelectStatement.select sel)) As none

/-- Tree of `SELECT * FROM t x`. -/
def selectStarAliased : Select :=
  simpleSelect [SelectExpr.starExpr ""] [tbl "t" "x"]

/-- Tree of `SELECT a.id, b.name FROM t1 a JOIN t2 b ON a.id=b.id`. -/
def selectJoin : Select :=
  simpleSelect [col "a" "id", col "b" "name"]
    [TableExpr.joinTableExpr (tbl "t1" "a") "join" (tbl "t2" "b")
      (some (Expr.comparisonExpr "="
        (Expr.colName { Name := "id", Qualifier := "a" })
        (Expr.colName { Name := "id", Qualifier := "b" })))]

/-- Tree of `SELECT * FROM (SELECT * FROM t x) y`. -/
def selectDerived : Select :=
  simpleSelect [SelectExpr.starExpr ""] [derived selectStarAliased "y"]

/-- Tree of `SELECT * FROM (SELECT * FROM t y) y`. -/
def selectDerivedSameAlias : Select :=
  simpleSelect [SelectExpr.starExpr ""]
    [derived (simpleSelect [SelectExpr.starExpr ""] [tbl "t" "y"]) "y"]

/-- Tree of `SELECT a FROM (SELECT b FROM t) y`. -/
def selectNested : Select :=
  simpleSelect [col "" "a"] [derived (simpleSelect [col "" "b"] [tbl "t" ""]) "y"]

/-- Tree of `UPDATE t SET a=1 WHERE b=2`. -/
def updateSample : Update :=
  { Comments := [], Table := { Name := "t", Qualifier := "" },
    Exprs := [{ Name := { Name := "a", Qualifier := "" }, Expr := Expr.numVal "1" }],
    Where := some (Expr.comparisonExpr "=" (Expr.colName { Name := "b", Qualifier := "" })
      (Expr.numVal "2")),
    OrderBy := [], Limit := none }

/-- Tree of `INSERT INTO t (a, b) SELECT c, d FROM s`. -/
def insertSample : Insert :=
  { Comments := [], Table := { Name := "t", Qualifier := "" },
    Columns := [col "" "a", col "" "b"],
    Rows := InsertRows.select (SelectStatement.select
      (simpleSelect [col "" "c", col "" "d"] [tbl "s" ""])),
    OnDup := [] }

/-- The grammar parser on the example statements; any other text is rejected
here. -/
def parseSample (sql : String) : Except String Statement :=
  if sql = "SELECT * FROM t x" then Except.ok (Statement.select selectStarAliased)
  else if sql = "SELECT a.id, b.name FROM t1 a JOIN t2 b ON a.id=b.id" then
    Except.ok (Statement.select selectJoin)
  else if sql = "SELECT * FROM (SELECT * FROM t x) y" then
    Except.ok (Statement.select selectDerived)
  else if sql = "SELECT * FROM (SELECT * FROM t y) y" then
    Except.ok (Statement.select selectDerivedSameAlias)
  else if sql = "SELECT a FROM (SELECT b FROM t) y" then
    Except.ok (Statement.select selectNested)
  else if sql = "UPDATE t SET a=1 WHERE b=2" then Except.ok (Statement.update updateSample)
  else if sql = "INSERT INTO t (a, b) SELECT c, d FROM s" then
    Except.ok (Statement.insert insertSample)
  else if sql = "CREATE TABLE t (a int)" then Except.ok (Statement.ddl "create" "t" "")
  else Except.error "parse error"

/-- A parser object holding `sql` whose result is still empty. -/
def emptyParser (sql : String) : SQLParser :=
  { sql := sql, chineseFieldMap := fun _ => none, result := NewSQLparserResult }

/-- Tree of `DELETE FROM t WHERE a=1`. -/
def deleteSample : Delete :=
  { Comments := [], Table := { Name := "t", Qualifier := "" },
    Where := some (Expr.comparisonExpr "=" (Expr.colName { Name := "a", Qualifier := "" })
      (Expr.numVal "1")),
    OrderBy := [], Limit := none }

/-- Tree of `SELECT a FROM t1 UNION SELECT b FROM t2`. -/
def unionSample : Union :=
  Union.mk "union" (SelectStatement.select (simpleSelect [col "" "a"] [tbl "t1" ""]))
    (SelectStatement.select (simpleSelect [col "" "b"] [tbl "t2" ""]))

/-- Tree of `SELECT max(a.x) AS m FROM t a`. -/
def selectMax : Select :=
  simpleSelect [SelectExpr.nonStarExpr (Expr.funcExpr "max" false [col "a" "x"]) "m"]
    [tbl "t" "a"]

/-- Tree of `SELECT count(*) FROM t`. -/
def selectCount : Select :=
  simpleSelect [SelectExpr.nonStarExpr (Expr.funcExpr "count" false [SelectExpr.starExpr ""]) ""]
    [tbl "t" ""]

/-- Tree of `SELECT a, 1, b FROM t`. -/
def selectWithLiteral : Select :=
  simpleSelect [col "" "a", SelectExpr.nonStarExpr (Expr.numVal "1") "", col "" "b"]
    [tbl "t" ""]

/-- Tree of `SELECT a FROM t WHERE b IN (SELECT c FROM u)`. -/
def selectWhereSubquery : Select :=
  Select.mk [] "" [col "" "a"] [tbl "t" ""]
    (some (Expr.comparisonExpr "in" (Expr.colName { Name := "b", Qualifier := "" })
      (Expr.subquery (SelectStatement.select (simpleSelect [col "" "c"] [tbl "u" ""])))))
    [] none [] none ""

/-- Tree of `SELECT CASE WHEN a = 1 THEN b ELSE c END FROM t`. -/
def selectCase : Select :=
  simpleSelect
    [SelectExpr.nonStarExpr (Expr.caseExpr none
        [When.mk (Expr.comparisonExpr "=" (Expr.colName { Name := "a", Qualifier := "" })
          (Expr.numVal "1")) (Expr.colName { Name := "b", Qualifier := "" })]
        (some (Expr.colName { Name := "c", Qualifier := "" }))) ""]
    [tbl "t" ""]

/-- Tree of `SELECT max(m) AS m FROM t`. -/
def selectMaxSameName : Select :=
  simpleSelect [SelectExpr.nonStarExpr (Expr.funcExpr "max" false [col "" "m"]) "m"]
    [tbl "t" ""]

/-- Tree of `SELECT concat(a.x, b.y) AS m FROM t a, u b`. -/
def selectConcat : Select :=
  simpleSelect
    [SelectExpr.nonStarExpr (Expr.funcExpr "concat" false [col "a" "x", col "b" "y"]) "m"]
    [tbl "t" "a", tbl "u" "b"]

/-- The grammar parser on further example statements, and on those of
`parseSample`. -/
def parseMore (sql : String) : Except String Statement :=
  if sql = "DELETE FROM t WHERE a=1" then Except.ok (Statement.delete deleteSample)
  else if sql = "SELECT a FROM t1 UNION SELECT b FROM t2" then
    Except.ok (Statement.union unionSample)
  else if sql = "SELECT max(a.x) AS m FROM t a" then Except.ok (Statement.select selectMax)
  else if sql = "SELECT count(*) FROM t" then Except.ok (Statement.select selectCount)
  else if sql = "SELECT a, 1, b FROM t" then Except.ok (Statement.select selectWithLiteral)
  else if sql = "SELECT a FROM t WHERE b IN (SELECT c FROM u)" then
    Except.ok (Statement.select selectWhereSubquery)
  else if sql = "SELECT CASE WHEN a = 1 THEN b ELSE c END FROM t" then
    Except.ok (Statement.select selectCase)
  else if sql = "SELECT max(m) AS m FROM t" then Except.ok (Statement.select selectMaxSameName)
  else if sql = "SELECT concat(a.x, b.y) AS m FROM t a, u b" then
    Except.ok (Statement.select selectConcat)
  else parseSample sql

/-! ## Reference description of a projection list -/

/-- The columns a projection list records: for each item, first to last, the
columns that item records on its own from an empty result. -/
def columnsInOrder : List SelectExpr → List ColumnRef
  | [] => []
  | e :: es => (visitExpr e NewSQLparserResult).columns ++ columnsInOrder es

/-! ## Predicates used in the statements -/

/-- The expression kinds of a projection item that `visitExpr` passes over:
string literal, numeric literal, binary expression, and every kind that falls
to its `default` branch. -/
def Expr.isPassedOver : Expr → Bool
  | Expr.colName _ => false
  | Expr.funcExpr _ _ _ => false
  | Expr.valTuple _ => false
  | Expr.caseExpr _ _ _ => false
  | _ => true

/-- A routine only appends: the tables and the columns before the call are
initial segments of the tables and the columns after it. -/
def OnlyAppends (f : SQLParserResult → SQLParserResult) : Prop :=
  ∀ r, r.tables <+: (f r).tables ∧ r.columns <+: (f r).columns

/-! ## The walk with a log of visited positions

A second transcription of the walk routines in which every call of a routine
first writes the position of its node to a log.  A position is the list of
child indices leading from the root to the node. -/

mutual

/-- Logging `visitExpr`: a function call visits its arguments, which sit
under child `0` of the projection item; the other kinds make no further call
of a walk routine. -/
def visitExprLogged :
    SelectExpr → List Nat → SQLParserResult × List (List Nat) →
      SQLParserResult × List (List Nat)
  | SelectExpr.nonStarExpr (Expr.funcExpr _ _ exprs) _, p, (r, log) =>
      visitExprsLogged exprs (p ++ [0]) 0 (r, log ++ [p])
  | SelectExpr.nonStarExpr e As, p, (r, log) =>
      (visitExpr (SelectExpr.nonStarExpr e As) r, log ++ [p])
  | SelectExpr.starExpr tableName, p, (r, log) =>
      (visitExpr (SelectExpr.starExpr tableName) r, log ++ [p])

/-- Logging loop over a projection list whose first item has index `i`. -/
def visitExprsLogged :
    List SelectExpr → List Nat → Nat → SQLParserResult × List (List Nat) →
      SQLParserResult × List (List Nat)
  | [], _, _, s => s
  | e :: es, p, i, s => visitExprsLogged es p (i + 1) (visitExprLogged e (p ++ [i]) s)

end

mutual

/-- Logging `visitQuery`. -/
def visitQueryLogged :
    SelectStatement → String → List Nat → SQLParserResult × List (List Nat) →
      SQLParserResult × List (List Nat)
  | SelectStatement.select s, nodeAlias, p, (r, log) =>
      visitSelectLogged s nodeAlias (p ++ [0]) (r, log ++ [p])
  | SelectStatement.union u, nodeAlias, p, (r, log) =>
      visitUnionLogged u nodeAlias (p ++ [0]) (r, log ++ [p])

/-- Logging `visitUnion`: left branch under child `0`, right under `1`. -/
def visitUnionLogged :
    Union → String → List Nat → SQLParserResult × List (List Nat) →
      SQLParserResult × List (List Nat)
  | Union.mk _ left right, nodeAlias, p, (r, log) =>
      visitQueryLogged right nodeAlias (p ++ [1])
        (visitQueryLogged left nodeAlias (p ++ [0]) (r, log ++ [p]))

/-- Logging `visitSelect`: the `FROM` list under child `0`, the projection
list under child `1`. -/
def visitSelectLogged :
    Select → String → List Nat → SQLParserResult × List (List Nat) →
      SQLParserResult × List (List Nat)
  | Select.mk _ _ selectExprs From _ _ _ _ _ _, nodeAlias, p, (r, log) =>
      visitExprsLogged selectExprs (p ++ [1]) 0
        (visitFormsLogged From nodeAlias (p ++ [0]) 0 (r, log ++ [p]))

/-- Logging loop over a `FROM` list whose first item has index `i`. -/
def visitFormsLogged :
    List TableExpr → String → List Nat → Nat → SQLParserResult × List (List Nat) →
      SQLParserResult × List (List Nat)
  | [], _, _, _, s => s
  | t :: ts, nodeAlias, p, i, s =>
      visitFormsLogged ts nodeAlias p (i + 1) (visitFormLogged t nodeAlias (p ++ [i]) s)

/-- Logging `visitForm`. -/
def visitFormLogged :
    TableExpr → String → List Nat → SQLParserResult × List (List Nat) →
      SQLParserResult × List (List Nat)
  | TableExpr.parenTableExpr expr, nodeAlias, p, (r, log) =>
      visitFormLogged expr nodeAlias (p ++ [0]) (r, log ++ [p])
  | TableExpr.joinTableExpr leftExpr _ rightExpr _, nodeAlias, p, (r, log) =>
      visitFormLogged rightExpr nodeAlias (p ++ [1])
        (visitFormLogged leftExpr nodeAlias (p ++ [0]) (r, log ++ [p]))
  | TableExpr.aliasedTableExpr expr As _, nodeAlias, p, (r, log) =>
      let newNodeAlias := As
      if newNodeAlias ≠ "" then
        visitTableLogged expr newNodeAlias (p ++ [0])
          (r.AddTableAlias newNodeAlias nodeAlias, log ++ [p])
      else
        visitTableLogged expr nodeAlias (p ++ [0]) (r, log ++ [p])

/-- Logging `visitTable`. -/
def visitTableLogged :
    SimpleTableExpr → String → List Nat → SQLParserResult × List (List Nat) →
      SQLParserResult × List (List Nat)
  | SimpleTableExpr.tableName t, aliasName, p, (r, log) =>
      (r.AddTable t.Qualifier t.Name aliasName, log ++ [p])
  | SimpleTableExpr.subquery sel, aliasName, p, (r, log) =>
      visitQueryLogged sel aliasName (p ++ [0]) (r, log ++ [p])

end

/-- A log written below position `p`: no position occurs twice and every
position extends `p`. -/
def LogBelow (p : List Nat) (tr : List (List Nat)) : Prop :=
  tr.Nodup ∧ ∀ q ∈ tr, p <+: q

/-- A log written by a loop over the items `i`, `i + 1`, ... under position
`p`: no position occurs twice and every position extends that of an item. -/
def LogItems (p : List Nat) (i : Nat) (tr : List (List Nat)) : Prop :=
  tr.Nodup ∧ ∀ q ∈ tr, ∃ j, i ≤ j ∧ (p ++ [j]) <+: q

/-! ## `cleanSql` and `NewSQLParser`

Texts are lists of characters.  `regexp` and `kitgo.StringReplace` replace
every match, found leftmost first and without overlap, in one pass. -/

/-- A character in the class of `pattern_chinese`, U+4E00 to U+9FA5. -/
def isChinese (c : Char) : Bool :=
  decide (0x4E00 ≤ c.toNat) && decide (c.toNat ≤ 0x9FA5)

/-- Go `fmt.Sprintf("__r%d", count)`. -/
def placeholder (count : Nat) : String :=
  "__r" ++ toString count

/-- What the first replacement of `cleanSql` leaves: the text, the counter
and the placeholder map. -/
structure ChineseScan where
  text : List Char
  count : Nat
  chineseFieldMap : String → Option String

/-- The call `pattern_chinese.ReplaceAllStringFunc(sp.sql, func ...)`.  A match
of `[\u4E00-\u9FA5]+` starts at a character of the class that does not
continue a match and takes the whole run; `inRun` tells that the character
before belongs to the match being replaced.  The closure stores the run
under the placeholder of the current count and counts on. -/
def replaceChinese :
    List Char → Bool → Nat → (String → Option String) → ChineseScan
  | [], _, count, m => { text := [], count := count, chineseFieldMap := m }
  | c :: t, inRun, count, m =>
    if isChinese c then
      if inRun then replaceChinese t true count m
      else
        let src := String.mk ((c :: t).takeWhile isChinese)
        let key := placeholder count
        let rest := replaceChinese t true (count + 1)
          (fun k => if k = key then some src else m k)
        { rest with text := key.data ++ rest.text }
    else
      let rest := replaceChinese t false count m
      { rest with text := c :: rest.text }

/-- A single or a double quote character. -/
def isQuote (c : Char) : Bool :=
  c = Char.ofNat 39 || c = Char.ofNat 34

/-- Length of the match of `pattern_as`, `(?i)as ('|")([^'"]+)('|")`, at the
start of a text, if there is one: `a`, `s` in either case (case folding also
takes U+017F for `s`), a blank, a quote, the longest non-empty run without a
quote, and a quote. -/
def matchAs : List Char → Option Nat
  | a :: s :: b :: q :: rest =>
    if (a = 'a' || a = 'A') && (s = 's' || s = 'S' || s = Char.ofNat 0x17F) && b = ' ' &&
        isQuote q then
      let body := rest.takeWhile (fun c => !isQuote c)
      match rest.drop body.length with
      | q2 :: _ => if body ≠ [] && isQuote q2 then some (body.length + 5) else none
      | [] => none
    else none
  | _ => none

/-- The call `pattern_as.ReplaceAllStringFunc(sp.sql, func ...)` whose closure
returns the match without its quotes (`kitgo.StringReplace(src, "\"|'", "")`);
`inside` counts the characters of the current match still to come. -/
def replaceAs : List Char → Nat → List Char
  | [], _ => []
  | c :: t, inside + 1 => if isQuote c then replaceAs t inside else c :: replaceAs t inside
  | c :: t, 0 =>
    match matchAs (c :: t) with
    | some len => c :: replaceAs t (len - 1)
    | none => c :: replaceAs t 0

/-- Length of the match of `;|\(\+\)` at the start of a text, if there is
one. -/
def matchSemicolonOrPlus : List Char → Option Nat
  | c :: t =>
    if c = ';' then some 1
    else if c = '(' && t.take 2 = ['+', ')'] then some 3
    else none
  | [] => none

/-- The call `kitgo.StringReplace(sp.sql, ";|\\(\\+\\)", "")`, taken as a
regular-expression replace-all by the empty string; `inside` counts the
characters of the current match still to come. -/
def removeSemicolonOrPlus : List Char → Nat → List Char
  | [], _ => []
  | _ :: t, inside + 1 => removeSemicolonOrPlus t inside
  | c :: t, 0 =>
    match matchSemicolonOrPlus (c :: t) with
    | some len => removeSemicolonOrPlus t (len - 1)
    | none => c :: removeSemicolonOrPlus t 0

/-- The text `cleanSql` holds before its last replacement. -/
def textBeforeLastReplace (sql : String) (m : String → Option String) : List Char :=
  replaceAs (replaceChinese sql.data false 0 m).text 0

/-- Go `cleanSql`. -/
def cleanSql (sp : SQLParser) : SQLParser :=
  { sql := String.mk (removeSemicolonOrPlus
      (textBeforeLastReplace sp.sql sp.chineseFieldMap) 0),
    chineseFieldMap := (replaceChinese sp.sql.data false 0 sp.chineseFieldMap).chineseFieldMap,
    result := sp.result }

/-- Go `NewSQLParser`. -/
def NewSQLParser (sqlString : String) : SQLParser :=
  cleanSql { sql := sqlString, chineseFieldMap := fun _ => none, result := NewSQLparserResult }

/-! ## Reference description of the first replacement -/

/-- The value of a text of decimal digits. -/
def decimalValue (cs : List Char) : Nat :=
  cs.foldl (fun acc c => 10 * acc + (c.toNat - 48)) 0

/-- The input text made of the pieces `(gap, run)` in order, followed by a
last gap. -/
def unsplit : List (List Char × List Char) → List Char → List Char
  | [], tail => tail
  | p :: ps, tail => p.1 ++ p.2 ++ unsplit ps tail

/-- The pieces are the maximal runs of the class of `pattern_chinese` with the
text between them: a gap holds no character of the class, a run is non-empty
and holds only characters of the class, and two runs are kept apart by a
non-empty gap. -/
def IsRunSplit (segs : List (List Char × List Char)) (tail : List Char) : Prop :=
  (∀ p ∈ segs, (∀ c ∈ p.1, isChinese c = false) ∧ p.2 ≠ [] ∧ ∀ c ∈ p.2, isChinese c = true) ∧
  (∀ p ∈ segs.tail, p.1 ≠ []) ∧ ∀ c ∈ tail, isChinese c = false

/-- The text with the run of index `i`, `i + 1`, ... replaced by its
placeholder. -/
def withPlaceholders : List (List Char × List Char) → Nat → List Char
  | [], _ => []
  | p :: ps, i => p.1 ++ (placeholder i).data ++ withPlaceholders ps (i + 1)

/-- The map with the run of index `i`, `i + 1`, ... stored under its
placeholder. -/
def recordRuns :
    List (List Char × List Char) → Nat → (String → Option String) → String → Option String
  | [], _, m => m
  | p :: ps, i, m =>
      recordRuns ps (i + 1) (fun k => if k = placeholder i then some (String.mk p.2) else m k)

/-! ## Composition of results -/

/-- The result `r` followed by the records of `d`: lists are appended, an
alias-map entry of `d` replaces the entry of `r` for the same key, and the
statement kind of `r` is kept. -/
def SQLParserResult.extend (r d : SQLParserResult) : SQLParserResult :=
  { sqlType := r.sqlType, tables := r.tables ++ d.tables, columns := r.columns ++ d.columns,
    aliasMap := fun k => match d.aliasMap k with
      | some v => some v
      | none => r.aliasMap k }

/-! ## Frame lemmas -/

theorem extend_empty (r : SQLParserResult) : r.extend NewSQLparserResult = r := by
  cases r
  simp [SQLParserResult.extend, NewSQLparserResult]

theorem extend_assoc (r a b : SQLParserResult) :
    (r.extend a).extend b = r.extend (a.extend b) := by
  simp only [SQLParserResult.extend, List.append_assoc, SQLParserResult.mk.injEq, true_and]
  funext k
  cases b.aliasMap k <;> rfl

theorem AddTable_extend (r d : SQLParserResult) (o t a : String) :
    (r.extend d).AddTable o t a = r.extend (d.AddTable o t a) := by
  simp [SQLParserResult.extend, SQLParserResult.AddTable]

theorem AddCol_extend (r d : SQLParserResult) (n a q : String) :
    (r.extend d).AddCol n a q = r.extend (d.AddCol n a q) := by
  simp [SQLParserResult.extend, SQLParserResult.AddCol]

theorem AddTableAlias_extend (r d : SQLParserResult) (n c : String) :
    (r.extend d).AddTableAlias n c = r.extend (d.AddTableAlias n c) := by
  unfold SQLParserResult.AddTableAlias
  by_cases h : c = ""
  · simp [h]
  · simp only [h, if_false, SQLParserResult.extend, SQLParserResult.mk.injEq, true_and]
    funext k
    by_cases hk : k = n
    · simp [hk]
    · simp [hk]

theorem visitValExp_id (exp : Option Expr) (r : SQLParserResult) : visitValExp exp r = r := by
  unfold visitValExp
  split <;> rfl

theorem foldl_visitValExp (vals : List Expr) (r : SQLParserResult) :
    vals.foldl (fun acc v => visitValExp (some v) acc) r = r := by
  induction vals generalizing r with
  | nil => rfl
  | cons v vs ih => rw [List.foldl_cons, visitValExp_id]; exact ih r

mutual

theorem visitExpr_extend : ∀ (e : SelectExpr) (r d : SQLParserResult),
    visitExpr e (r.extend d) = r.extend (visitExpr e d)
  | SelectExpr.starExpr _, r, d => by simp only [visitExpr]; exact AddCol_extend _ _ _ _ _
  | SelectExpr.nonStarExpr (Expr.colName _) _, r, d => by
      simp only [visitExpr]; exact AddCol_extend _ _ _ _ _
  | SelectExpr.nonStarExpr (Expr.funcExpr _ _ exprs) _, r, d => by
      simp only [visitExpr]; exact visitExprs_extend exprs r d
  | SelectExpr.nonStarExpr (Expr.valTuple _) _, r, d => by
      simp only [visitExpr, foldl_visitValExp]
  | SelectExpr.nonStarExpr (Expr.caseExpr _ _ _) _, r, d => by
      simp only [visitExpr, visitValExp_id]
  | SelectExpr.nonStarExpr (Expr.andExpr _ _) _, r, d => by simp only [visitExpr]
  | SelectExpr.nonStarExpr (Expr.orExpr _ _) _, r, d => by simp only [visitExpr]
  | SelectExpr.nonStarExpr (Expr.notExpr _) _, r, d => by simp only [visitExpr]
  | SelectExpr.nonStarExpr (Expr.parenBoolExpr _) _, r, d => by simp only [visitExpr]
  | SelectExpr.nonStarExpr (Expr.comparisonExpr _ _ _) _, r, d => by simp only [visitExpr]
  | SelectExpr.nonStarExpr (Expr.rangeCond _ _ _ _) _, r, d => by simp only [visitExpr]
  | SelectExpr.nonStarExpr (Expr.nullCheck _ _) _, r, d => by simp only [visitExpr]
  | SelectExpr.nonStarExpr (Expr.existsExpr _) _, r, d => by simp only [visitExpr]
  | SelectExpr.nonStarExpr (Expr.strVal _) _, r, d => by simp only [visitExpr]
  | SelectExpr.nonStarExpr (Expr.numVal _) _, r, d => by simp only [visitExpr]
  | SelectExpr.nonStarExpr (Expr.valArg _) _, r, d => by simp only [visitExpr]
  | SelectExpr.nonStarExpr Expr.nullVal _, r, d => by simp only [visitExpr]
  | SelectExpr.nonStarExpr (Expr.subquery _) _, r, d => by simp only [visitExpr]
  | SelectExpr.nonStarExpr (Expr.listArg _) _, r, d => by simp only [visitExpr]
  | SelectExpr.nonStarExpr (Expr.binaryExpr _ _ _) _, r, d => by simp only [visitExpr]
  | SelectExpr.nonStarExpr (Expr.unaryExpr _ _) _, r, d => by simp only [visitExpr]

theorem visitExprs_extend : ∀ (es : List SelectExpr) (r d : SQLParserResult),
    visitExprs es (r.extend d) = r.extend (visitExprs es d)
  | [], r, d => by simp only [visitExprs]
  | e :: es, r, d => by
      simp only [visitExprs]
      rw [visitExpr_extend e r d]
      exact visitExprs_extend es r (visitExpr e d)

end

mutual

theorem visitQuery_extend : ∀ (s : SelectStatement) (c : String) (r d : SQLParserResult),
    visitQuery s c (r.extend d) = r.extend (visitQuery s c d)
  | SelectStatement.select s, c, r, d => by
      simp only [visitQuery]; exact visitSelect_extend s c r d
  | SelectStatement.union u, c, r, d => by
      simp only [visitQuery]; exact visitUnion_extend u c r d

theorem visitUnion_extend : ∀ (u : Union) (c : String) (r d : SQLParserResult),
    visitUnion u c (r.extend d) = r.extend (visitUnion u c d)
  | Union.mk _ left right, c, r, d => by
      simp only [visitUnion]
      rw [visitQuery_extend left c r d]
      exact visitQuery_extend right c r _

theorem visitSelect_extend : ∀ (s : Select) (c : String) (r d : SQLParserResult),
    visitSelect s c (r.extend d) = r.extend (visitSelect s c d)
  | Select.mk _ _ selectExprs From _ _ _ _ _ _, c, r, d => by
      simp only [visitSelect]
      rw [visitForms_extend From c r d]
      exact visitExprs_extend selectExprs r _

theorem visitForms_extend : ∀ (ts : List TableExpr) (c : String) (r d : SQLParserResult),
    visitForms ts c (r.extend d) = r.extend (visitForms ts c d)
  | [], c, r, d => by simp only [visitForms]
  | t :: ts, c, r, d => by
      simp only [visitForms]
      rw [visitForm_extend t c r d]
      exact visitForms_extend ts c r _

theorem visitForm_extend : ∀ (t : TableExpr) (c : String) (r d : SQLParserResult),
    visitForm t c (r.extend d) = r.extend (visitForm t c d)
  | TableExpr.parenTableExpr expr, c, r, d => by
      simp only [visitForm]; exact visitForm_extend expr c r d
  | TableExpr.joinTableExpr leftExpr _ rightExpr _, c, r, d => by
      simp only [visitForm]
      rw [visitForm_extend leftExpr c r d]
      exact visitForm_extend rightExpr c r _
  | TableExpr.aliasedTableExpr expr As _, c, r, d => by
      simp only [visitForm]
      by_cases h : As = ""
      · simp only [h, ne_eq, not_true_eq_false, if_false]
        exact visitTable_extend expr c r d
      · simp only [h, ne_eq, not_false_eq_true, if_true]
        rw [AddTableAlias_extend]
        exact visitTable_extend expr As r _

theorem visitTable_extend : ∀ (t : SimpleTableExpr) (c : String) (r d : SQLParserResult),
    visitTable t c (r.extend d) = r.extend (visitTable t c d)
  | SimpleTableExpr.tableName _, c, r, d => by
      simp only [visitTable]; exact AddTable_extend _ _ _ _ _
  | SimpleTableExpr.subquery sel, c, r, d => by
      simp only [visitTable]; exact visitQuery_extend sel c r d

end

/-- A projection list started on `r` records what it records from an empty
result, after `r`. -/
theorem visitExprs_frame (es : List SelectExpr) (r : SQLParserResult) :
    visitExprs es r = r.extend (visitExprs es NewSQLparserResult) := by
  have h := visitExprs_extend es r NewSQLparserResult
  rw [extend_empty] at h
  exact h

/-- A `FROM` list started on `r` records what it records from an empty result,
after `r`. -/
theorem visitForms_frame (ts : List TableExpr) (c : String) (r : SQLParserResult) :
    visitForms ts c r = r.extend (visitForms ts c NewSQLparserResult) := by
  have h := visitForms_extend ts c r NewSQLparserResult
  rw [extend_empty] at h
  exact h

/-- A `SELECT` started on `r` records what it records from an empty result,
after `r`. -/
theorem visitSelect_frame (s : Select) (c : String) (r : SQLParserResult) :
    visitSelect s c r = r.extend (visitSelect s c NewSQLparserResult) := by
  have h := visitSelect_extend s c r NewSQLparserResult
  rw [extend_empty] at h
  exact h

/-- A `UNION` started on `r` records what it records from an empty result,
after `r`. -/
theorem visitUnion_frame (u : Union) (c : String) (r : SQLParserResult) :
    visitUnion u c r = r.extend (visitUnion u c NewSQLparserResult) := by
  have h := visitUnion_extend u c r NewSQLparserResult
  rw [extend_empty] at h
  exact h

mutual

theorem visitExpr_tables : ∀ (e : SelectExpr) (r : SQLParserResult),
    (visitExpr e r).tables = r.tables ∧ (visitExpr e r).aliasMap = r.aliasMap ∧
      (visitExpr e r).sqlType = r.sqlType
  | SelectExpr.starExpr _, r => by simp [visitExpr, SQLParserResult.AddCol]
  | SelectExpr.nonStarExpr (Expr.colName _) _, r => by simp [visitExpr, SQLParserResult.AddCol]
  | SelectExpr.nonStarExpr (Expr.funcExpr _ _ exprs) _, r => by
      simp only [visitExpr]; exact visitExprs_tables exprs r
  | SelectExpr.nonStarExpr (Expr.valTuple _) _, r => by
      simp only [visitExpr, foldl_visitValExp, and_self]
  | SelectExpr.nonStarExpr (Expr.caseExpr _ _ _) _, r => by
      simp only [visitExpr, visitValExp_id, and_self]
  | SelectExpr.nonStarExpr (Expr.andExpr _ _) _, r => by simp only [visitExpr, and_self]
  | SelectExpr.nonStarExpr (Expr.orExpr _ _) _, r => by simp only [visitExpr, and_self]
  | SelectExpr.nonStarExpr (Expr.notExpr _) _, r => by simp only [visitExpr, and_self]
  | SelectExpr.nonStarExpr (Expr.parenBoolExpr _) _, r => by simp only [visitExpr, and_self]
  | SelectExpr.nonStarExpr (Expr.comparisonExpr _ _ _) _, r => by
      simp only [visitExpr, and_self]
  | SelectExpr.nonStarExpr (Expr.rangeCond _ _ _ _) _, r => by simp only [visitExpr, and_self]
  | SelectExpr.nonStarExpr (Expr.nullCheck _ _) _, r => by simp only [visitExpr, and_self]
  | SelectExpr.nonStarExpr (Expr.existsExpr _) _, r => by simp only [visitExpr, and_self]
  | SelectExpr.nonStarExpr (Expr.strVal _) _, r => by simp only [visitExpr, and_self]
  | SelectExpr.nonStarExpr (Expr.numVal _) _, r => by simp only [visitExpr, and_self]
  | SelectExpr.nonStarExpr (Expr.valArg _) _, r => by simp only [visitExpr, and_self]
  | SelectExpr.nonStarExpr Expr.nullVal _, r => by simp only [visitExpr, and_self]
  | SelectExpr.nonStarExpr (Expr.subquery _) _, r => by simp only [visitExpr, and_self]
  | SelectExpr.nonStarExpr (Expr.listArg _) _, r => by simp only [visitExpr, and_self]
  | SelectExpr.nonStarExpr (Expr.binaryExpr _ _ _) _, r => by simp only [visitExpr, and_self]
  | SelectExpr.nonStarExpr (Expr.unaryExpr _ _) _, r => by simp only [visitExpr, and_self]

theorem visitExprs_tables : ∀ (es : List SelectExpr) (r : SQLParserResult),
    (visitExprs es r).tables = r.tables ∧ (visitExprs es r).aliasMap = r.aliasMap ∧
      (visitExprs es r).sqlType = r.sqlType
  | [], r => by simp only [visitExprs, and_self]
  | e :: es, r => by
      simp only [visitExprs]
      obtain ⟨h1, h2, h3⟩ := visitExprs_tables es (visitExpr e r)
      obtain ⟨g1, g2, g3⟩ := visitExpr_tables e r
      exact ⟨h1.trans g1, h2.trans g2, h3.trans g3⟩

end

theorem innermostAlias_nil (c : String) : innermostAlias [] c = c := by
  simp [innermostAlias]

theorem innermostAlias_cons_empty (p : List String) (c : String) :
    innermostAlias ("" :: p) c = innermostAlias p c := by
  simp [innermostAlias]

theorem getLast_cons_getD (a c : String) (l : List String) :
    ((a :: l).getLast?).getD c = (l.getLast?).getD a := by
  induction l generalizing a c with
  | nil => rfl
  | cons b t ih => rw [List.getLast?_cons_cons, ih b c, ih b a]

theorem innermostAlias_cons (a : String) (p : List String) (c : String) (h : a ≠ "") :
    innermostAlias (a :: p) c = innermostAlias p a := by
  unfold innermostAlias
  rw [List.filter_cons_of_pos (by simpa using h)]
  exact getLast_cons_getD a c _

theorem AddTableAlias_tables (r : SQLParserResult) (n c : String) :
    (r.AddTableAlias n c).tables = r.tables := by
  unfold SQLParserResult.AddTableAlias
  split <;> rfl

theorem map_leafRef_cons (l : List (TableName × List String)) (a c : String) :
    (l.map (fun p => (p.1, a :: p.2))).map (leafRef c) =
      l.map (leafRef (if a ≠ "" then a else c)) := by
  rw [List.map_map]
  apply List.map_congr_left
  intro p _
  by_cases h : a = ""
  · subst h
    simp [leafRef, innermostAlias_cons_empty]
  · simp [leafRef, innermostAlias_cons _ _ _ h, h]

mutual

theorem visitQuery_reference : ∀ (s : SelectStatement) (c : String) (r : SQLParserResult),
    (visitQuery s c r).tables = r.tables ++ (leavesQuery s).map (leafRef c)
  | SelectStatement.select s, c, r => by
      simp only [visitQuery, leavesQuery]; exact visitSelect_reference s c r
  | SelectStatement.union u, c, r => by
      simp only [visitQuery, leavesQuery]; exact visitUnion_reference u c r

theorem visitUnion_reference : ∀ (u : Union) (c : String) (r : SQLParserResult),
    (visitUnion u c r).tables = r.tables ++ (leavesUnion u).map (leafRef c)
  | Union.mk _ left right, c, r => by
      simp only [visitUnion, leavesUnion, List.map_append]
      rw [visitQuery_reference right c _, visitQuery_reference left c r, List.append_assoc]

theorem visitSelect_reference : ∀ (s : Select) (c : String) (r : SQLParserResult),
    (visitSelect s c r).tables = r.tables ++ (leavesSelect s).map (leafRef c)
  | Select.mk _ _ selectExprs From _ _ _ _ _ _, c, r => by
      simp only [visitSelect, leavesSelect]
      rw [(visitExprs_tables selectExprs _).1]
      exact visitForms_reference From c r

theorem visitForms_reference : ∀ (ts : List TableExpr) (c : String) (r : SQLParserResult),
    (visitForms ts c r).tables = r.tables ++ (leavesForms ts).map (leafRef c)
  | [], c, r => by simp only [visitForms, leavesForms, List.map_nil, List.append_nil]
  | t :: ts, c, r => by
      simp only [visitForms, leavesForms, List.map_append]
      rw [visitForms_reference ts c _, visitForm_reference t c r, List.append_assoc]

theorem visitForm_reference : ∀ (t : TableExpr) (c : String) (r : SQLParserResult),
    (visitForm t c r).tables = r.tables ++ (leavesForm t).map (leafRef c)
  | TableExpr.parenTableExpr expr, c, r => by
      simp only [visitForm, leavesForm]; exact visitForm_reference expr c r
  | TableExpr.joinTableExpr leftExpr _ rightExpr _, c, r => by
      simp only [visitForm, leavesForm, List.map_append]
      rw [visitForm_reference rightExpr c _, visitForm_reference leftExpr c r,
        List.append_assoc]
  | TableExpr.aliasedTableExpr expr As _, c, r => by
      simp only [visitForm, leavesForm]
      rw [map_leafRef_cons]
      by_cases h : As = ""
      · simp only [h, ne_eq, not_true_eq_false, if_false]
        exact visitTable_reference expr c r
      · simp only [h, ne_eq, not_false_eq_true, if_true]
        rw [visitTable_reference expr As _, AddTableAlias_tables]

theorem visitTable_reference : ∀ (t : SimpleTableExpr) (c : String) (r : SQLParserResult),
    (visitTable t c r).tables = r.tables ++ (leavesTable t).map (leafRef c)
  | SimpleTableExpr.tableName t, c, r => by
      simp [visitTable, leavesTable, SQLParserResult.AddTable, leafRef, innermostAlias_nil]
  | SimpleTableExpr.subquery sel, c, r => by
      simp only [visitTable, leavesTable]; exact visitQuery_reference sel c r

end

/-! ## `DoParser` on each root kind -/

theorem DoParser_select (parse : String → Except String Statement) (sp : SQLParser)
    (node : Select) (h : parse sp.sql = Except.ok (Statement.select node)) :
    DoParser parse sp =
      DoParserOutcome.mk
        (some (visitSelect node "" { sp.result with sqlType := some SqlType.SQL_TYPE_SELECT }))
        none
        (SQLParser.mk sp.sql sp.chineseFieldMap
          (visitSelect node "" { sp.result with sqlType := some SqlType.SQL_TYPE_SELECT })) := by
  simp only [DoParser, h]

theorem DoParser_union (parse : String → Except String Statement) (sp : SQLParser)
    (node : Union) (h : parse sp.sql = Except.ok (Statement.union node)) :
    DoParser parse sp =
      DoParserOutcome.mk
        (some (visitUnion node "" { sp.result with sqlType := some SqlType.SQL_TYPE_UNION }))
        none
        (SQLParser.mk sp.sql sp.chineseFieldMap
          (visitUnion node "" { sp.result with sqlType := some SqlType.SQL_TYPE_UNION })) := by
  simp only [DoParser, h]

theorem DoParser_insert (parse : String → Except String Statement) (sp : SQLParser)
    (node : Insert) (h : parse sp.sql = Except.ok (Statement.insert node)) :
    DoParser parse sp =
      DoParserOutcome.mk
        (some (visitInsert node { sp.result with sqlType := some SqlType.SQL_TYPE_INSERT }))
        none
        (SQLParser.mk sp.sql sp.chineseFieldMap
          (visitInsert node { sp.result with sqlType := some SqlType.SQL_TYPE_INSERT })) := by
  simp only [DoParser, h]

theorem DoParser_update (parse : String → Except String Statement) (sp : SQLParser)
    (node : Update) (h : parse sp.sql = Except.ok (Statement.update node)) :
    DoParser parse sp =
      DoParserOutcome.mk
        (some (visitUpdate node { sp.result with sqlType := some SqlType.SQL_TYPE_UPDATE }))
        none
        (SQLParser.mk sp.sql sp.chineseFieldMap
          (visitUpdate node { sp.result with sqlType := some SqlType.SQL_TYPE_UPDATE })) := by
  simp only [DoParser, h]

theorem DoParser_delete (parse : String → Except String Statement) (sp : SQLParser)
    (node : Delete) (h : parse sp.sql = Except.ok (Statement.delete node)) :
    DoParser parse sp =
      DoParserOutcome.mk
        (some (visitDelete node { sp.result with sqlType := some SqlType.SQL_TYPE_DEL }))
        none
        (SQLParser.mk sp.sql sp.chineseFieldMap
          (visitDelete node { sp.result with sqlType := some SqlType.SQL_TYPE_DEL })) := by
  simp only [DoParser, h]

/-! ## Claims -/

/-- C1: `DoParser` returns an error exactly when the text fails to parse or the
root statement is none of Select, Union, Insert, Update, Delete; with an error
the returned result is nil; on each of the five kinds it returns the result
held by the parser object, with a nil error. -/
theorem DoParser_error_iff (parse : String → Except String Statement) (sp : SQLParser) :
    ((DoParser parse sp).err ≠ none ↔
      ((∃ e, parse sp.sql = Except.error e) ∨
        ∃ ast, parse sp.sql = Except.ok ast ∧ ast.isSupported = false)) ∧
    ((DoParser parse sp).err ≠ none → (DoParser parse sp).result = none) ∧
    (∀ ast, parse sp.sql = Except.ok ast → ast.isSupported = true →
      (DoParser parse sp).result = some (DoParser parse sp).sp.result ∧
      (DoParser parse sp).err = none) := by
  cases h : parse sp.sql with
  | error e => simp [DoParser, h]
  | ok ast => cases ast <;> simp [DoParser, h, Statement.isSupported]

/-- C2: a `SELECT` whose `FROM` is one plain table (schema `s`, name `n`) with
alias `a` and whose projection list is one star with qualifier `q` yields,
from an empty result, kind SELECT, tables `[TableRef s n a]` and columns
`[ColumnRef "*" "*" q]`. -/
theorem DoParser_select_star (parse : String → Except String Statement) (sql : String)
    (m : String → Option String) (comments : List String) (distinct : String)
    (Where : Option Expr) (groupBy : List Expr) (having : Option Expr) (orderBy : List Order)
    (limit : Option Limit) (lock : String) (hints : Option IndexHints) (s n a q : String)
    (hparse : parse sql = Except.ok (Statement.select
      (Select.mk comments distinct [SelectExpr.starExpr q]
        [TableExpr.aliasedTableExpr (SimpleTableExpr.tableName { Name := n, Qualifier := s })
          a hints] Where groupBy having orderBy limit lock))) :
    ∃ res, (DoParser parse (SQLParser.mk sql m NewSQLparserResult)).result = some res ∧
      (DoParser parse (SQLParser.mk sql m NewSQLparserResult)).err = none ∧
      res.sqlType = some SqlType.SQL_TYPE_SELECT ∧
      res.tables = [{ schema := s, name := n, aliasName := a }] ∧
      res.columns = [{ name := "*", aliasName := "*", qualifier := q }] := by
  rw [DoParser_select parse _ _ hparse]
  refine ⟨_, rfl, rfl, ?_, ?_, ?_⟩
  · by_cases h : a = "" <;>
      simp [visitSelect, visitForms, visitForm, visitTable, visitExprs, visitExpr,
        SQLParserResult.AddTable, SQLParserResult.AddCol, SQLParserResult.AddTableAlias,
        NewSQLparserResult, h]
  · by_cases h : a = "" <;>
      simp [visitSelect, visitForms, visitForm, visitTable, visitExprs, visitExpr,
        SQLParserResult.AddTable, SQLParserResult.AddCol, SQLParserResult.AddTableAlias,
        NewSQLparserResult, h]
  · by_cases h : a = "" <;>
      simp [visitSelect, visitForms, visitForm, visitTable, visitExprs, visitExpr,
        SQLParserResult.AddTable, SQLParserResult.AddCol, SQLParserResult.AddTableAlias,
        NewSQLparserResult, h]

/-- C2 at `SELECT * FROM t x`: one `TableRef "" "t" "x"` and one
`ColumnRef "*" "*" ""`. -/
theorem DoParser_select_star_witness :
    ∃ res, (DoParser parseSample (emptyParser "SELECT * FROM t x")).result = some res ∧
      (DoParser parseSample (emptyParser "SELECT * FROM t x")).err = none ∧
      res.sqlType = some SqlType.SQL_TYPE_SELECT ∧
      res.tables = [{ schema := "", name := "t", aliasName := "x" }] ∧
      res.columns = [{ name := "*", aliasName := "*", qualifier := "" }] :=
  DoParser_select_star parseSample "SELECT * FROM t x" (fun _ => none) [] "" none [] none []
    none "" none "" "t" "x" "" rfl

/-- C3: visiting a join under context `c` is visiting its left side under `c`
and then its right side under `c`, whatever the `ON` condition; and
`SELECT a.id, b.name FROM t1 a JOIN t2 b ON a.id=b.id` yields tables
`t1 a`, `t2 b` and columns `a.id`, `b.name` only. -/
theorem visitForm_join (leftExpr rightExpr : TableExpr) (join : String) (On : Option Expr)
    (c : String) (r : SQLParserResult) :
    visitForm (TableExpr.joinTableExpr leftExpr join rightExpr On) c r =
        visitForm rightExpr c (visitForm leftExpr c r) ∧
      Option.map SQLParserResult.tables (DoParser parseSample (emptyParser
          "SELECT a.id, b.name FROM t1 a JOIN t2 b ON a.id=b.id")).result =
        some [{ schema := "", name := "t1", aliasName := "a" },
          { schema := "", name := "t2", aliasName := "b" }] ∧
      Option.map SQLParserResult.columns (DoParser parseSample (emptyParser
          "SELECT a.id, b.name FROM t1 a JOIN t2 b ON a.id=b.id")).result =
        some [{ name := "id", aliasName := "", qualifier := "a" },
          { name := "name", aliasName := "", qualifier := "b" }] := by
  refine ⟨?_, ?_, ?_⟩
  · simp only [visitForm]
  · rfl
  · rfl

/-- C4: an aliased table expression with non-empty own alias `n` visited under
context `c` first records the alias-map entry `n → c` when `c` is non-empty and
records nothing when `c` is empty, then visits its inner expression under `n`;
for a plain table inside, the alias map after the visit is the map before it
with that one entry, or unchanged. -/
theorem visitForm_aliased_aliasMap (expr : SimpleTableExpr) (n : String)
    (hints : Option IndexHints) (c : String) (r : SQLParserResult) (hn : n ≠ "") :
    (c ≠ "" → visitForm (TableExpr.aliasedTableExpr expr n hints) c r =
      visitTable expr n
        { r with aliasMap := fun k => if k = n then some c else r.aliasMap k }) ∧
    (c = "" → visitForm (TableExpr.aliasedTableExpr expr n hints) c r = visitTable expr n r) ∧
    (∀ t, expr = SimpleTableExpr.tableName t →
      (visitForm (TableExpr.aliasedTableExpr expr n hints) c r).aliasMap =
        if c = "" then r.aliasMap else fun k => if k = n then some c else r.aliasMap k) := by
  refine ⟨?_, ?_, ?_⟩
  · intro hc
    simp [visitForm, hn, SQLParserResult.AddTableAlias, hc]
  · intro hc
    simp [visitForm, hn, SQLParserResult.AddTableAlias, hc]
  · intro t ht
    subst ht
    by_cases hc : c = "" <;>
      simp [visitForm, visitTable, hn, SQLParserResult.AddTableAlias, SQLParserResult.AddTable,
        hc]

/-- C4 at alias `x` under context `y`, and under the empty context. -/
theorem visitForm_aliased_aliasMap_witness :
    ("x" : String) ≠ "" ∧
    (visitForm (tbl "t" "x") "y" NewSQLparserResult).aliasMap "x" = some "y" ∧
    (visitForm (tbl "t" "x") "" NewSQLparserResult).aliasMap "x" = none := by
  have h1 := visitForm_aliased_aliasMap
    (SimpleTableExpr.tableName { Name := "t", Qualifier := "" }) "x" none "y"
    NewSQLparserResult (by decide)
  have h2 := visitForm_aliased_aliasMap
    (SimpleTableExpr.tableName { Name := "t", Qualifier := "" }) "x" none ""
    NewSQLparserResult (by decide)
  refine ⟨by decide, ?_, ?_⟩
  · have := h1.2.2 _ rfl
    simp only [tbl, this]
    decide
  · have := h2.2.2 _ rfl
    simp only [tbl, this]
    rfl

/-- C5, as stated, fails: for `SELECT a FROM (SELECT b FROM t) y` the columns
are `[b, a]`, the subquery's column first. -/
theorem columns_outer_first_counterexample :
    Option.map SQLParserResult.columns (DoParser parseSample (emptyParser
        "SELECT a FROM (SELECT b FROM t) y")).result =
      some [{ name := "b", aliasName := "", qualifier := "" },
        { name := "a", aliasName := "", qualifier := "" }] ∧
    Option.map SQLParserResult.columns (DoParser parseSample (emptyParser
        "SELECT a FROM (SELECT b FROM t) y")).result ≠
      some [{ name := "a", aliasName := "", qualifier := "" },
        { name := "b", aliasName := "", qualifier := "" }] := by
  constructor
  · rfl
  · decide

theorem visitSelect_eq (s : Select) (c : String) (r : SQLParserResult) :
    visitSelect s c r = visitExprs s.SelectExprs (visitForms s.From c r) := by
  cases s
  simp only [visitSelect, Select.From, Select.SelectExprs]

theorem AddTableAlias_columns (r : SQLParserResult) (n c : String) :
    (r.AddTableAlias n c).columns = r.columns := by
  unfold SQLParserResult.AddTableAlias
  split <;> rfl

/-- C5 (amended): for every `SELECT`, context and starting result, the columns
after the visit are the starting columns, then everything the `FROM` clause
records (the projection lists of its subqueries included), then what the
`SELECT`'s own projection list records; tables come from `FROM` alone.  When
`FROM` is one derived table, the subquery's columns precede the outer ones. -/
theorem visitSelect_columns_from_first (s : Select) (c : String) (r : SQLParserResult) :
    (visitSelect s c r).columns =
        r.columns ++ (visitForms s.From c NewSQLparserResult).columns ++
          (visitExprs s.SelectExprs NewSQLparserResult).columns ∧
      (visitSelect s c r).tables = r.tables ++ (visitForms s.From c NewSQLparserResult).tables ∧
      (∀ (sub : Select) (y : String) (hints : Option IndexHints),
        s.From = [TableExpr.aliasedTableExpr
          (SimpleTableExpr.subquery (SelectStatement.select sub)) y hints] →
        (visitSelect s c r).columns =
          r.columns ++ (visitSelect sub (if y ≠ "" then y else c) NewSQLparserResult).columns ++
            (visitExprs s.SelectExprs NewSQLparserResult).columns) := by
  have hcols : (visitSelect s c r).columns =
      r.columns ++ (visitForms s.From c NewSQLparserResult).columns ++
        (visitExprs s.SelectExprs NewSQLparserResult).columns := by
    rw [visitSelect_eq, visitExprs_frame, visitForms_frame]
    simp [SQLParserResult.extend]
  refine ⟨hcols, ?_, ?_⟩
  · rw [visitSelect_eq, (visitExprs_tables _ _).1, visitForms_frame]
    simp [SQLParserResult.extend]
  · intro sub y hints hfrom
    rw [hcols, hfrom]
    congr 2
    simp only [visitForms, visitForm, visitTable, visitQuery]
    by_cases hy : y = ""
    · simp [hy]
    · simp only [ne_eq, hy, not_false_eq_true, if_true]
      rw [visitSelect_frame]
      simp [SQLParserResult.extend, AddTableAlias_columns, NewSQLparserResult]

/-- C6: for every `SELECT` or `UNION` statement, alias context `c` and
starting result, the tables after the walk are the starting tables followed by
the reference list: the plain table-name leaves under `FROM` clauses, left to
right and depth first, each with the innermost non-empty `AS` alias on its way
down, or `c` without one.  So an unaliased table inside a derived table
aliased `y` is recorded with alias `y`, and the derived table itself gets no
`TableRef`. -/
theorem visitQuery_tables_reference (s : SelectStatement) (c : String)
    (r : SQLParserResult) :
    (visitQuery s c r).tables = r.tables ++ referenceTables s c ∧
      (∀ (es1 es2 : List SelectExpr) (t : TableName) (y : String), y ≠ "" →
        (visitQuery (SelectStatement.select (simpleSelect es1
            [derived (simpleSelect es2
              [TableExpr.aliasedTableExpr (SimpleTableExpr.tableName t) "" none]) y]))
          c NewSQLparserResult).tables =
        [{ schema := t.Qualifier, name := t.Name, aliasName := y }]) := by
  constructor
  · exact visitQuery_reference s c r
  · intro es1 es2 t y hy
    rw [visitQuery_reference]
    simp [leavesQuery, leavesSelect, leavesForms, leavesForm, leavesTable, simpleSelect,
      derived, leafRef, innermostAlias, NewSQLparserResult, hy]

/-- C7, as stated, fails when the inner alias equals the outer one: for
`SELECT * FROM (SELECT * FROM t y) y` the one `TableRef` carries alias `y`. -/
theorem derived_alias_counterexample :
    Option.map SQLParserResult.tables (DoParser parseSample (emptyParser
        "SELECT * FROM (SELECT * FROM t y) y")).result =
      some [{ schema := "", name := "t", aliasName := "y" }] ∧
    ¬ (∀ ts, Option.map SQLParserResult.tables (DoParser parseSample (emptyParser
        "SELECT * FROM (SELECT * FROM t y) y")).result = some ts →
      ∀ tr ∈ ts, tr.aliasName ≠ "y") := by
  refine ⟨rfl, ?_⟩
  intro h
  exact h [{ schema := "", name := "t", aliasName := "y" }] rfl
    { schema := "", name := "t", aliasName := "y" } (List.mem_singleton.mpr rfl) rfl

/-- C7 (amended): for every `SELECT` whose `FROM` is one subquery with alias
`y` whose body is a `SELECT` from one plain table `t` with non-empty alias `x`,
the tables from an empty result are exactly `[TableRef t.schema t.name x]`: the
derived table adds no `TableRef` of its own, and no `TableRef` carries alias
`y` when `y` differs from `x`. -/
theorem DoParser_derived_tables (parse : String → Except String Statement) (sql : String)
    (m : String → Option String) (outer inner : Select) (t : TableName) (x y : String)
    (hintsX hintsY : Option IndexHints)
    (houter : outer.From = [TableExpr.aliasedTableExpr
      (SimpleTableExpr.subquery (SelectStatement.select inner)) y hintsY])
    (hinner : inner.From = [TableExpr.aliasedTableExpr (SimpleTableExpr.tableName t) x hintsX])
    (hx : x ≠ "")
    (hparse : parse sql = Except.ok (Statement.select outer)) :
    ∃ res, (DoParser parse (SQLParser.mk sql m NewSQLparserResult)).result = some res ∧
      res.tables = [{ schema := t.Qualifier, name := t.Name, aliasName := x }] ∧
      (y ≠ x → ∀ tr ∈ res.tables, tr.aliasName ≠ y) := by
  rw [DoParser_select parse _ _ hparse]
  have htab : (visitSelect outer ""
      { NewSQLparserResult with sqlType := some SqlType.SQL_TYPE_SELECT }).tables =
      [{ schema := t.Qualifier, name := t.Name, aliasName := x }] := by
    rw [visitSelect_eq, (visitExprs_tables _ _).1, houter]
    simp only [visitForms, visitForm, visitTable, visitQuery]
    have hin : ∀ (c : String) (r : SQLParserResult), (visitSelect inner c r).tables =
        r.tables ++ [{ schema := t.Qualifier, name := t.Name, aliasName := x }] := by
      intro c r
      rw [visitSelect_eq, (visitExprs_tables _ _).1, hinner]
      simp [visitForms, visitForm, visitTable, hx, SQLParserResult.AddTable,
        AddTableAlias_tables]
    by_cases hy : y = ""
    · simp [hy, hin, NewSQLparserResult]
    · simp [hy, hin, NewSQLparserResult, AddTableAlias_tables]
  refine ⟨_, rfl, htab, ?_⟩
  intro hyx tr htr
  rw [htab, List.mem_singleton] at htr
  subst htr
  exact fun h => hyx h.symm

/-- C7 at `SELECT * FROM (SELECT * FROM t x) y`: the tables are `[t x]` and
none carries alias `y`. -/
theorem DoParser_derived_tables_witness :
    ∃ res, (DoParser parseSample
        (SQLParser.mk "SELECT * FROM (SELECT * FROM t x) y" (fun _ => none)
          NewSQLparserResult)).result = some res ∧
      res.tables = [{ schema := "", name := "t", aliasName := "x" }] ∧
      (("y" : String) ≠ "x" → ∀ tr ∈ res.tables, tr.aliasName ≠ "y") :=
  DoParser_derived_tables parseSample "SELECT * FROM (SELECT * FROM t x) y" (fun _ => none)
    selectDerived selectStarAliased { Name := "t", Qualifier := "" } "x" "y" none none
    rfl rfl (by decide) rfl

/-- C8, as stated, fails: on a parser object holding `SELECT * FROM t x` the
first call returns tables `[t x]` and the second call returns `[t x, t x]`. -/
theorem DoParser_twice_counterexample :
    Option.map SQLParserResult.tables
        (DoParser parseSample (emptyParser "SELECT * FROM t x")).result =
      some [{ schema := "", name := "t", aliasName := "x" }] ∧
    Option.map SQLParserResult.tables
        (DoParser parseSample (DoParser parseSample (emptyParser "SELECT * FROM t x")).sp).result =
      some [{ schema := "", name := "t", aliasName := "x" },
        { schema := "", name := "t", aliasName := "x" }] ∧
    Option.map SQLParserResult.tables
        (DoParser parseSample (DoParser parseSample (emptyParser "SELECT * FROM t x")).sp).result ≠
      Option.map SQLParserResult.tables
        (DoParser parseSample (emptyParser "SELECT * FROM t x")).result := by
  refine ⟨rfl, rfl, ?_⟩
  decide

theorem visitSimpleTable_frame (t : TableName) (a : String) (r : SQLParserResult) :
    visitSimpleTable t a r = r.extend (visitSimpleTable t a NewSQLparserResult) := by
  have h := AddTable_extend r NewSQLparserResult t.Qualifier t.Name a
  rw [extend_empty] at h
  exact h

theorem foldl_AddCol (es : List UpdateExpr) (r : SQLParserResult) :
    es.foldl (fun acc column => acc.AddCol column.Name.Name "" column.Name.Qualifier) r =
      { r with columns := r.columns ++ es.map (fun e =>
          { name := e.Name.Name, aliasName := "", qualifier := e.Name.Qualifier }) } := by
  induction es generalizing r with
  | nil => simp
  | cons e es ih =>
      rw [List.foldl_cons, ih]
      simp [SQLParserResult.AddCol]

theorem visitUpdate_frame (node : Update) (r : SQLParserResult) :
    visitUpdate node r = r.extend (visitUpdate node NewSQLparserResult) := by
  simp [visitUpdate, foldl_AddCol, visitSimpleTable, SQLParserResult.AddTable,
    SQLParserResult.extend, NewSQLparserResult]

theorem visitInsert_frame (node : Insert) (r : SQLParserResult) :
    visitInsert node r = r.extend (visitInsert node NewSQLparserResult) := by
  unfold visitInsert
  rw [visitSimpleTable_frame, visitExprs_extend]

theorem visitDelete_frame (node : Delete) (r : SQLParserResult) :
    visitDelete node r = r.extend (visitDelete node NewSQLparserResult) :=
  visitSimpleTable_frame _ _ _

/-- Two runs of a walk that only extends the result, each after setting the
same statement kind. -/
theorem twice_of_frame (f : SQLParserResult → SQLParserResult)
    (hf : ∀ r, f r = r.extend (f NewSQLparserResult)) (T : SqlType) (r : SQLParserResult) :
    (f { r with sqlType := some T }).tables = r.tables ++ (f NewSQLparserResult).tables ∧
    (f { f { r with sqlType := some T } with sqlType := some T }).tables =
      (f { r with sqlType := some T }).tables ++ (f NewSQLparserResult).tables ∧
    (f { r with sqlType := some T }).columns = r.columns ++ (f NewSQLparserResult).columns ∧
    (f { f { r with sqlType := some T } with sqlType := some T }).columns =
      (f { r with sqlType := some T }).columns ++ (f NewSQLparserResult).columns ∧
    (f { f { r with sqlType := some T } with sqlType := some T }).sqlType =
      (f { r with sqlType := some T }).sqlType ∧
    (f { f { r with sqlType := some T } with sqlType := some T }).aliasMap =
      (f { r with sqlType := some T }).aliasMap := by
  rw [hf { f { r with sqlType := some T } with sqlType := some T }, hf { r with sqlType := some T }]
  refine ⟨rfl, rfl, rfl, rfl, rfl, ?_⟩
  funext k
  simp only [SQLParserResult.extend]
  cases (f NewSQLparserResult).aliasMap k <;> rfl

/-- C8 (amended): on every parser object and supported statement, the second
`DoParser` call works on the result the first call left: with `dt`, `dc` the
tables and columns the statement records, the first result holds the starting
lists followed by `dt`, `dc`, and the second result holds the first result's
lists followed by `dt`, `dc` once more; statement kind and alias map of the
two results are equal.  From empty starting lists the second result's lists
are the first's repeated twice. -/
theorem DoParser_twice (parse : String → Except String Statement) (sp : SQLParser)
    (ast : Statement) (hparse : parse sp.sql = Except.ok ast)
    (hs : ast.isSupported = true) :
    ∃ r1 r2 dt dc, (DoParser parse sp).result = some r1 ∧
      (DoParser parse (DoParser parse sp).sp).result = some r2 ∧
      r1.tables = sp.result.tables ++ dt ∧ r2.tables = r1.tables ++ dt ∧
      r1.columns = sp.result.columns ++ dc ∧ r2.columns = r1.columns ++ dc ∧
      r2.sqlType = r1.sqlType ∧ r2.aliasMap = r1.aliasMap ∧
      (sp.result.tables = [] → r2.tables = r1.tables ++ r1.tables) ∧
      (sp.result.columns = [] → r2.columns = r1.columns ++ r1.columns) := by
  have key : ∀ (f : SQLParserResult → SQLParserResult) (T : SqlType),
      (∀ r, f r = r.extend (f NewSQLparserResult)) →
      (DoParser parse sp).result = some (f { sp.result with sqlType := some T }) →
      (DoParser parse (DoParser parse sp).sp).result =
        some (f { f { sp.result with sqlType := some T } with sqlType := some T }) →
      ∃ r1 r2 dt dc, (DoParser parse sp).result = some r1 ∧
        (DoParser parse (DoParser parse sp).sp).result = some r2 ∧
        r1.tables = sp.result.tables ++ dt ∧ r2.tables = r1.tables ++ dt ∧
        r1.columns = sp.result.columns ++ dc ∧ r2.columns = r1.columns ++ dc ∧
        r2.sqlType = r1.sqlType ∧ r2.aliasMap = r1.aliasMap ∧
        (sp.result.tables = [] → r2.tables = r1.tables ++ r1.tables) ∧
        (sp.result.columns = [] → r2.columns = r1.columns ++ r1.columns) := by
    intro f T hf h1 h2
    obtain ⟨a1, a2, a3, a4, a5, a6⟩ := twice_of_frame f hf T sp.result
    refine ⟨_, _, (f NewSQLparserResult).tables, (f NewSQLparserResult).columns, h1, h2,
      a1, a2, a3, a4, a5, a6, ?_, ?_⟩
    · intro he
      rw [a2, a1, he, List.nil_append]
    · intro he
      rw [a4, a3, he, List.nil_append]
  cases ast with
  | select node =>
      have h1 := DoParser_select parse sp node hparse
      have h2 := DoParser_select parse (DoParser parse sp).sp node (by rw [h1]; exact hparse)
      exact key (visitSelect node "") SqlType.SQL_TYPE_SELECT (visitSelect_frame node "")
        (by rw [h1]) (by rw [h2, h1])
  | union node =>
      have h1 := DoParser_union parse sp node hparse
      have h2 := DoParser_union parse (DoParser parse sp).sp node (by rw [h1]; exact hparse)
      exact key (visitUnion node "") SqlType.SQL_TYPE_UNION (visitUnion_frame node "")
        (by rw [h1]) (by rw [h2, h1])
  | insert node =>
      have h1 := DoParser_insert parse sp node hparse
      have h2 := DoParser_insert parse (DoParser parse sp).sp node (by rw [h1]; exact hparse)
      exact key (visitInsert node) SqlType.SQL_TYPE_INSERT (visitInsert_frame node)
        (by rw [h1]) (by rw [h2, h1])
  | update node =>
      have h1 := DoParser_update parse sp node hparse
      have h2 := DoParser_update parse (DoParser parse sp).sp node (by rw [h1]; exact hparse)
      exact key (visitUpdate node) SqlType.SQL_TYPE_UPDATE (visitUpdate_frame node)
        (by rw [h1]) (by rw [h2, h1])
  | delete node =>
      have h1 := DoParser_delete parse sp node hparse
      have h2 := DoParser_delete parse (DoParser parse sp).sp node (by rw [h1]; exact hparse)
      exact key (visitDelete node) SqlType.SQL_TYPE_DEL (visitDelete_frame node)
        (by rw [h1]) (by rw [h2, h1])
  | set _ _ => simp [Statement.isSupported] at hs
  | ddl _ _ _ => simp [Statement.isSupported] at hs
  | other => simp [Statement.isSupported] at hs

/-- C8 (amended) at `SELECT * FROM t x` on a parser object with an empty
result. -/
theorem DoParser_twice_witness :
    ∃ r1 r2 dt dc,
      (DoParser parseSample (emptyParser "SELECT * FROM t x")).result = some r1 ∧
      (DoParser parseSample
        (DoParser parseSample (emptyParser "SELECT * FROM t x")).sp).result = some r2 ∧
      r1.tables = (emptyParser "SELECT * FROM t x").result.tables ++ dt ∧
      r2.tables = r1.tables ++ dt ∧
      r1.columns = (emptyParser "SELECT * FROM t x").result.columns ++ dc ∧
      r2.columns = r1.columns ++ dc ∧
      r2.sqlType = r1.sqlType ∧ r2.aliasMap = r1.aliasMap ∧
      ((emptyParser "SELECT * FROM t x").result.tables = [] →
        r2.tables = r1.tables ++ r1.tables) ∧
      ((emptyParser "SELECT * FROM t x").result.columns = [] →
        r2.columns = r1.columns ++ r1.columns) :=
  DoParser_twice parseSample (emptyParser "SELECT * FROM t x")
    (Statement.select selectStarAliased) rfl rfl

/-- C9: every `UPDATE` yields, from an empty result, kind UPDATE, the target
table with empty alias as the only table, and one column per assignment, in
order, with empty alias and the qualifier of the left-hand side; the assigned
values and the `WHERE` clause add nothing. -/
theorem DoParser_update_columns (parse : String → Except String Statement) (sql : String)
    (m : String → Option String) (u : Update)
    (hparse : parse sql = Except.ok (Statement.update u)) :
    ∃ res, (DoParser parse (SQLParser.mk sql m NewSQLparserResult)).result = some res ∧
      (DoParser parse (SQLParser.mk sql m NewSQLparserResult)).err = none ∧
      res.sqlType = some SqlType.SQL_TYPE_UPDATE ∧
      res.tables = [{ schema := u.Table.Qualifier, name := u.Table.Name, aliasName := "" }] ∧
      res.columns = u.Exprs.map (fun e =>
        { name := e.Name.Name, aliasName := "", qualifier := e.Name.Qualifier }) := by
  rw [DoParser_update parse _ _ hparse]
  refine ⟨_, rfl, rfl, ?_, ?_, ?_⟩ <;>
    simp [visitUpdate, foldl_AddCol, visitSimpleTable, SQLParserResult.AddTable,
      NewSQLparserResult]

/-- C9 at `UPDATE t SET a=1 WHERE b=2`: one table `t` with empty alias and
the one column `a`. -/
theorem DoParser_update_columns_witness :
    ∃ res, (DoParser parseSample
        (SQLParser.mk "UPDATE t SET a=1 WHERE b=2" (fun _ => none)
          NewSQLparserResult)).result = some res ∧
      (DoParser parseSample
        (SQLParser.mk "UPDATE t SET a=1 WHERE b=2" (fun _ => none)
          NewSQLparserResult)).err = none ∧
      res.sqlType = some SqlType.SQL_TYPE_UPDATE ∧
      res.tables = [{ schema := "", name := "t", aliasName := "" }] ∧
      res.columns = [{ name := "a", aliasName := "", qualifier := "" }] :=
  DoParser_update_columns parseSample "UPDATE t SET a=1 WHERE b=2" (fun _ => none)
    updateSample rfl

theorem visitExprs_plain (cols : List (ColName × String)) (r : SQLParserResult) :
    visitExprs (cols.map (fun p => SelectExpr.nonStarExpr (Expr.colName p.1) p.2)) r =
      { r with columns := r.columns ++ cols.map (fun p =>
          { name := p.1.Name, aliasName := p.2, qualifier := p.1.Qualifier }) } := by
  induction cols generalizing r with
  | nil => simp [visitExprs]
  | cons p ps ih =>
      simp only [List.map_cons, visitExprs, visitExpr]
      rw [ih]
      simp [SQLParserResult.AddCol]

/-- C10: every `INSERT` yields, from an empty result, kind INSERT, the target
table with empty alias as the only table, and as columns what the projection
visitor records for the target column list, in order: one
`ColumnRef name alias qualifier` per plain column.  The inserted rows,
`VALUES` or a source `SELECT`, add nothing. -/
theorem DoParser_insert_columns (parse : String → Except String Statement) (sql : String)
    (m : String → Option String) (i : Insert)
    (hparse : parse sql = Except.ok (Statement.insert i)) :
    ∃ res, (DoParser parse (SQLParser.mk sql m NewSQLparserResult)).result = some res ∧
      (DoParser parse (SQLParser.mk sql m NewSQLparserResult)).err = none ∧
      res.sqlType = some SqlType.SQL_TYPE_INSERT ∧
      res.tables = [{ schema := i.Table.Qualifier, name := i.Table.Name, aliasName := "" }] ∧
      res.columns = (visitExprs i.Columns NewSQLparserResult).columns ∧
      (∀ cols : List (ColName × String),
        i.Columns = cols.map (fun p => SelectExpr.nonStarExpr (Expr.colName p.1) p.2) →
        res.columns = cols.map (fun p =>
          { name := p.1.Name, aliasName := p.2, qualifier := p.1.Qualifier })) := by
  rw [DoParser_insert parse _ _ hparse]
  have hcols : (visitInsert i
      { NewSQLparserResult with sqlType := some SqlType.SQL_TYPE_INSERT }).columns =
      (visitExprs i.Columns NewSQLparserResult).columns := by
    unfold visitInsert
    rw [visitExprs_frame]
    simp [SQLParserResult.extend, visitSimpleTable, SQLParserResult.AddTable,
      NewSQLparserResult]
  refine ⟨_, rfl, rfl, ?_, ?_, hcols, ?_⟩
  · unfold visitInsert
    rw [(visitExprs_tables _ _).2.2]
    simp [visitSimpleTable, SQLParserResult.AddTable, NewSQLparserResult]
  · unfold visitInsert
    rw [(visitExprs_tables _ _).1]
    simp [visitSimpleTable, SQLParserResult.AddTable, NewSQLparserResult]
  · intro cols hc
    rw [hcols, hc, visitExprs_plain]
    simp [NewSQLparserResult]

/-- C10 at `INSERT INTO t (a, b) SELECT c, d FROM s`: table `t` and columns
`a`, `b`; nothing from the source `SELECT`. -/
theorem DoParser_insert_columns_witness :
    ∃ res, (DoParser parseSample
        (SQLParser.mk "INSERT INTO t (a, b) SELECT c, d FROM s" (fun _ => none)
          NewSQLparserResult)).result = some res ∧
      (DoParser parseSample
        (SQLParser.mk "INSERT INTO t (a, b) SELECT c, d FROM s" (fun _ => none)
          NewSQLparserResult)).err = none ∧
      res.sqlType = some SqlType.SQL_TYPE_INSERT ∧
      res.tables = [{ schema := "", name := "t", aliasName := "" }] ∧
      res.columns = [{ name := "a", aliasName := "", qualifier := "" },
        { name := "b", aliasName := "", qualifier := "" }] := by
  obtain ⟨res, h1, h2, h3, h4, h5, _⟩ := DoParser_insert_columns parseSample
    "INSERT INTO t (a, b) SELECT c, d FROM s" (fun _ => none) insertSample rfl
  exact ⟨res, h1, h2, h3, h4, h5.trans rfl⟩

/-- C11: every `DELETE` yields, from an empty result, kind DELETE, the target
table with empty alias as the only table, no column and an empty alias map,
whatever its `WHERE` clause. -/
theorem DoParser_delete_tables (parse : String → Except String Statement) (sql : String)
    (m : String → Option String) (d : Delete)
    (hparse : parse sql = Except.ok (Statement.delete d)) :
    ∃ res, (DoParser parse (SQLParser.mk sql m NewSQLparserResult)).result = some res ∧
      (DoParser parse (SQLParser.mk sql m NewSQLparserResult)).err = none ∧
      res.sqlType = some SqlType.SQL_TYPE_DEL ∧
      res.tables = [{ schema := d.Table.Qualifier, name := d.Table.Name, aliasName := "" }] ∧
      res.columns = [] ∧ (∀ k, res.aliasMap k = none) := by
  rw [DoParser_delete parse _ _ hparse]
  refine ⟨_, rfl, rfl, ?_, ?_, ?_, ?_⟩ <;>
    simp [visitDelete, visitSimpleTable, SQLParserResult.AddTable, NewSQLparserResult]

/-- C11 at `DELETE FROM t WHERE a=1`: table `t`, no column, no alias entry. -/
theorem DoParser_delete_tables_witness :
    ∃ res, (DoParser parseMore
        (SQLParser.mk "DELETE FROM t WHERE a=1" (fun _ => none)
          NewSQLparserResult)).result = some res ∧
      (DoParser parseMore
        (SQLParser.mk "DELETE FROM t WHERE a=1" (fun _ => none)
          NewSQLparserResult)).err = none ∧
      res.sqlType = some SqlType.SQL_TYPE_DEL ∧
      res.tables = [{ schema := "", name := "t", aliasName := "" }] ∧
      res.columns = [] ∧ (∀ k, res.aliasMap k = none) :=
  DoParser_delete_tables parseMore "DELETE FROM t WHERE a=1" (fun _ => none) deleteSample rfl

theorem visitQuery_frame (s : SelectStatement) (c : String) (r : SQLParserResult) :
    visitQuery s c r = r.extend (visitQuery s c NewSQLparserResult) := by
  have h := visitQuery_extend s c r NewSQLparserResult
  rw [extend_empty] at h
  exact h

theorem visitForm_frame (t : TableExpr) (c : String) (r : SQLParserResult) :
    visitForm t c r = r.extend (visitForm t c NewSQLparserResult) := by
  have h := visitForm_extend t c r NewSQLparserResult
  rw [extend_empty] at h
  exact h

theorem visitTable_frame (t : SimpleTableExpr) (c : String) (r : SQLParserResult) :
    visitTable t c r = r.extend (visitTable t c NewSQLparserResult) := by
  have h := visitTable_extend t c r NewSQLparserResult
  rw [extend_empty] at h
  exact h

theorem visitExpr_frame (e : SelectExpr) (r : SQLParserResult) :
    visitExpr e r = r.extend (visitExpr e NewSQLparserResult) := by
  have h := visitExpr_extend e r NewSQLparserResult
  rw [extend_empty] at h
  exact h

/-- C12: visiting a `UNION` under context `c` is visiting its left branch
under `c` and then its right branch under `c`; from an empty result the tables
are those of the left branch followed by those of the right branch, and so
are the columns; a root `UNION` is recorded with kind UNION, also when both
branches are `SELECT`s. -/
theorem visitUnion_left_right (kind : String) (left right : SelectStatement) (c : String)
    (r : SQLParserResult) :
    visitUnion (Union.mk kind left right) c r = visitQuery right c (visitQuery left c r) ∧
    (visitUnion (Union.mk kind left right) c NewSQLparserResult).tables =
      (visitQuery left c NewSQLparserResult).tables ++
        (visitQuery right c NewSQLparserResult).tables ∧
    (visitUnion (Union.mk kind left right) c NewSQLparserResult).columns =
      (visitQuery left c NewSQLparserResult).columns ++
        (visitQuery right c NewSQLparserResult).columns ∧
    (∀ (parse : String → Except String Statement) (sp : SQLParser),
      parse sp.sql = Except.ok (Statement.union (Union.mk kind left right)) →
      Option.map SQLParserResult.sqlType (DoParser parse sp).result =
        some (some SqlType.SQL_TYPE_UNION)) ∧
    Option.map SQLParserResult.sqlType (DoParser parseMore
        (emptyParser "SELECT a FROM t1 UNION SELECT b FROM t2")).result =
      some (some SqlType.SQL_TYPE_UNION) := by
  refine ⟨by simp only [visitUnion], ?_, ?_, ?_, rfl⟩
  · simp only [visitUnion]
    rw [visitQuery_frame right]
    simp [SQLParserResult.extend]
  · simp only [visitUnion]
    rw [visitQuery_frame right]
    simp [SQLParserResult.extend]
  · intro parse sp h
    rw [DoParser_union parse sp _ h]
    simp only [Option.map_some']
    rw [visitUnion_frame]
    simp [SQLParserResult.extend]

theorem visitExprs_columnsInOrder (es : List SelectExpr) (r : SQLParserResult) :
    (visitExprs es r).columns = r.columns ++ columnsInOrder es := by
  induction es generalizing r with
  | nil => simp [visitExprs, columnsInOrder]
  | cons e es ih =>
      simp only [visitExprs, columnsInOrder]
      rw [ih, visitExpr_frame]
      simp [SQLParserResult.extend]

theorem columnsInOrder_plain (cols : List (ColName × String)) :
    columnsInOrder (cols.map (fun p => SelectExpr.nonStarExpr (Expr.colName p.1) p.2)) =
      cols.map (fun p => { name := p.1.Name, aliasName := p.2, qualifier := p.1.Qualifier }) := by
  induction cols with
  | nil => rfl
  | cons p ps ih =>
      simp only [List.map_cons, columnsInOrder, ih]
      simp [visitExpr, SQLParserResult.AddCol, NewSQLparserResult]

/-- C13, as stated, fails on the alias clause: for `SELECT max(m) AS m FROM t`
the one recorded `ColumnRef` is the argument `m`, whose name is the text of
the call's alias. -/
theorem funcExpr_alias_counterexample :
    Option.map SQLParserResult.columns (DoParser parseMore
        (emptyParser "SELECT max(m) AS m FROM t")).result =
      some [{ name := "m", aliasName := "", qualifier := "" }] ∧
    ¬ (∀ cols, Option.map SQLParserResult.columns (DoParser parseMore
          (emptyParser "SELECT max(m) AS m FROM t")).result = some cols →
        ∀ cr ∈ cols, cr.name ≠ "m" ∧ cr.aliasName ≠ "m" ∧ cr.qualifier ≠ "m") := by
  refine ⟨rfl, ?_⟩
  intro h
  exact (h [{ name := "m", aliasName := "", qualifier := "" }] rfl
    { name := "m", aliasName := "", qualifier := "" } (List.mem_singleton.mpr rfl)).1 rfl

/-- C13 (amended): a function-call projection appends exactly the columns its
arguments record, first argument to last, and changes neither tables nor
alias map: nothing is recorded for the call itself.  For plain column
arguments these are the columns `name, alias, qualifier` of the arguments in
argument order.  The records are the same whatever the call's name,
`DISTINCT` flag and `AS` alias are, so the text of the alias occurs in a
recorded `ColumnRef` only where an argument's own record spells it: with
plain column arguments none of whose name, alias and qualifier is that text,
it occurs in none.  `SELECT max(a.x) AS m FROM t a` yields the one column `x`
with empty alias and qualifier `a`, `count(*)` yields the star column, and
`concat(a.x, b.y)` yields `a.x` before `b.y`. -/
theorem visitExpr_funcExpr_arguments (name : String) (distinct : Bool)
    (exprs : List SelectExpr) (As : String) (r : SQLParserResult) :
    (visitExpr (SelectExpr.nonStarExpr (Expr.funcExpr name distinct exprs) As) r).columns =
      r.columns ++ columnsInOrder exprs ∧
    (visitExpr (SelectExpr.nonStarExpr (Expr.funcExpr name distinct exprs) As) r).tables =
      r.tables ∧
    (visitExpr (SelectExpr.nonStarExpr (Expr.funcExpr name distinct exprs) As) r).aliasMap =
      r.aliasMap ∧
    (∀ cols : List (ColName × String),
      exprs = cols.map (fun p => SelectExpr.nonStarExpr (Expr.colName p.1) p.2) →
      (visitExpr (SelectExpr.nonStarExpr (Expr.funcExpr name distinct exprs) As) r).columns =
          r.columns ++ cols.map (fun p =>
            { name := p.1.Name, aliasName := p.2, qualifier := p.1.Qualifier }) ∧
        ((∀ p ∈ cols, p.1.Name ≠ As ∧ p.2 ≠ As ∧ p.1.Qualifier ≠ As) →
          ∀ cr ∈ columnsInOrder exprs, cr.name ≠ As ∧ cr.aliasName ≠ As ∧ cr.qualifier ≠ As)) ∧
    (∀ (name2 : String) (distinct2 : Bool) (As2 : String),
      visitExpr (SelectExpr.nonStarExpr (Expr.funcExpr name2 distinct2 exprs) As2) r =
        visitExpr (SelectExpr.nonStarExpr (Expr.funcExpr name distinct exprs) As) r) ∧
    Option.map SQLParserResult.columns (DoParser parseMore
        (emptyParser "SELECT max(a.x) AS m FROM t a")).result =
      some [{ name := "x", aliasName := "", qualifier := "a" }] ∧
    Option.map SQLParserResult.columns (DoParser parseMore
        (emptyParser "SELECT count(*) FROM t")).result =
      some [{ name := "*", aliasName := "*", qualifier := "" }] ∧
    Option.map SQLParserResult.columns (DoParser parseMore
        (emptyParser "SELECT concat(a.x, b.y) AS m FROM t a, u b")).result =
      some [{ name := "x", aliasName := "", qualifier := "a" },
        { name := "y", aliasName := "", qualifier := "b" }] := by
  have hcols : (visitExpr (SelectExpr.nonStarExpr (Expr.funcExpr name distinct exprs) As)
      r).columns = r.columns ++ columnsInOrder exprs := by
    simp only [visitExpr]
    exact visitExprs_columnsInOrder exprs r
  refine ⟨hcols, ?_, ?_, ?_, ?_, rfl, rfl, rfl⟩
  · simp only [visitExpr]
    exact (visitExprs_tables exprs r).1
  · simp only [visitExpr]
    exact (visitExprs_tables exprs r).2.1
  · intro cols hc
    refine ⟨by rw [hcols, hc, columnsInOrder_plain], ?_⟩
    intro hne cr hcr
    rw [hc, columnsInOrder_plain] at hcr
    obtain ⟨p, hp, hpc⟩ := List.mem_map.mp hcr
    rw [← hpc]
    exact hne p hp
  · intro name2 distinct2 As2
    simp only [visitExpr]

theorem visitExpr_isPassedOver (e : Expr) (As : String) (r : SQLParserResult)
    (h : e.isPassedOver = true) : visitExpr (SelectExpr.nonStarExpr e As) r = r := by
  cases e <;> simp [Expr.isPassedOver] at h <;> simp only [visitExpr]

theorem visitExprs_append (xs ys : List SelectExpr) (r : SQLParserResult) :
    visitExprs (xs ++ ys) r = visitExprs ys (visitExprs xs r) := by
  induction xs generalizing r with
  | nil => simp only [List.nil_append, visitExprs]
  | cons x xs ih => simp only [List.cons_append, visitExprs]; exact ih _

theorem visitExprs_remove (pre post : List SelectExpr) (x : SelectExpr)
    (hx : ∀ r, visitExpr x r = r) (r : SQLParserResult) :
    visitExprs (pre ++ x :: post) r = visitExprs (pre ++ post) r := by
  rw [visitExprs_append, visitExprs_append]
  simp only [visitExprs, hx]

/-- C14: a projection item whose expression is a string literal, a numeric
literal, a binary expression or a kind the visitor does not recognise leaves
the result as it is; a projection list with such an item records what the
list without the item records, so the items before and after it are still
recorded; and `DoParser` on a `SELECT` with the item returns, with no error,
the result it returns on the `SELECT` without the item. -/
theorem visitExpr_passed_over (e : Expr) (As : String) (pre post : List SelectExpr)
    (comments : List String) (distinct : String) (From : List TableExpr)
    (Where : Option Expr) (groupBy : List Expr) (having : Option Expr) (orderBy : List Order)
    (limit : Option Limit) (lock : String) (c : String) (r : SQLParserResult)
    (h : e.isPassedOver = true) :
    visitExpr (SelectExpr.nonStarExpr e As) r = r ∧
    visitExprs (pre ++ SelectExpr.nonStarExpr e As :: post) r = visitExprs (pre ++ post) r ∧
    visitSelect (Select.mk comments distinct (pre ++ SelectExpr.nonStarExpr e As :: post) From
        Where groupBy having orderBy limit lock) c r =
      visitSelect (Select.mk comments distinct (pre ++ post) From
        Where groupBy having orderBy limit lock) c r ∧
    (∀ (parse parse2 : String → Except String Statement) (sp : SQLParser),
      parse sp.sql = Except.ok (Statement.select (Select.mk comments distinct
        (pre ++ SelectExpr.nonStarExpr e As :: post) From
        Where groupBy having orderBy limit lock)) →
      parse2 sp.sql = Except.ok (Statement.select (Select.mk comments distinct
        (pre ++ post) From Where groupBy having orderBy limit lock)) →
      (DoParser parse sp).result = (DoParser parse2 sp).result ∧
        (DoParser parse sp).result ≠ none ∧ (DoParser parse sp).err = none) := by
  have hx : ∀ r, visitExpr (SelectExpr.nonStarExpr e As) r = r :=
    fun r => visitExpr_isPassedOver e As r h
  have hsel : ∀ (c : String) (r : SQLParserResult),
      visitSelect (Select.mk comments distinct (pre ++ SelectExpr.nonStarExpr e As :: post) From
        Where groupBy having orderBy limit lock) c r =
      visitSelect (Select.mk comments distinct (pre ++ post) From
        Where groupBy having orderBy limit lock) c r := by
    intro c r
    simp only [visitSelect]
    exact visitExprs_remove pre post _ hx _
  refine ⟨hx r, visitExprs_remove pre post _ hx r, hsel c r, ?_⟩
  intro parse parse2 sp h1 h2
  rw [DoParser_select parse sp _ h1, DoParser_select parse2 sp _ h2]
  simp [hsel]

/-- C14 at `SELECT a, 1, b FROM t`: the literal `1` is passed over and the
columns are `a`, `b`, as for `SELECT a, b FROM t`. -/
theorem visitExpr_passed_over_witness :
    (Expr.numVal "1").isPassedOver = true ∧
    visitExprs ([col "" "a"] ++ SelectExpr.nonStarExpr (Expr.numVal "1") "" :: [col "" "b"])
        NewSQLparserResult =
      visitExprs ([col "" "a"] ++ [col "" "b"]) NewSQLparserResult ∧
    Option.map SQLParserResult.columns (DoParser parseMore
        (emptyParser "SELECT a, 1, b FROM t")).result =
      some [{ name := "a", aliasName := "", qualifier := "" },
        { name := "b", aliasName := "", qualifier := "" }] :=
  ⟨rfl, (visitExpr_passed_over (Expr.numVal "1") "" [col "" "a"] [col "" "b"] [] "" [] none []
    none [] none "" "" NewSQLparserResult rfl).2.1, rfl⟩

theorem onlyAppends_of_frame (f : SQLParserResult → SQLParserResult)
    (hf : ∀ r, f r = r.extend (f NewSQLparserResult)) : OnlyAppends f := by
  intro r
  rw [hf r]
  exact ⟨List.prefix_append _ _, List.prefix_append _ _⟩

/-- C15: each visit routine only appends: for every node, alias context and
starting result, the tables and the columns before the call are initial
segments of the tables and the columns after it. -/
theorem visit_only_appends (s : Select) (u : Union) (q : SelectStatement) (t : TableExpr)
    (st : SimpleTableExpr) (tn : TableName) (e : SelectExpr) (v : Option Expr) (i : Insert)
    (up : Update) (d : Delete) (c : String) :
    OnlyAppends (visitSelect s c) ∧ OnlyAppends (visitUnion u c) ∧
    OnlyAppends (visitQuery q c) ∧ OnlyAppends (visitForm t c) ∧
    OnlyAppends (visitTable st c) ∧ OnlyAppends (visitSimpleTable tn c) ∧
    OnlyAppends (visitExpr e) ∧ OnlyAppends (visitValExp v) ∧
    OnlyAppends (visitInsert i) ∧ OnlyAppends (visitUpdate up) ∧
    OnlyAppends (visitDelete d) := by
  refine ⟨onlyAppends_of_frame _ (visitSelect_frame s c),
    onlyAppends_of_frame _ (visitUnion_frame u c),
    onlyAppends_of_frame _ (visitQuery_frame q c),
    onlyAppends_of_frame _ (visitForm_frame t c),
    onlyAppends_of_frame _ (visitTable_frame st c),
    onlyAppends_of_frame _ (visitSimpleTable_frame tn c),
    onlyAppends_of_frame _ (visitExpr_frame e), ?_,
    onlyAppends_of_frame _ (visitInsert_frame i),
    onlyAppends_of_frame _ (visitUpdate_frame up),
    onlyAppends_of_frame _ (visitDelete_frame d)⟩
  intro r
  rw [visitValExp_id]
  exact ⟨List.prefix_refl _, List.prefix_refl _⟩

/-- C16: two `Select` nodes with equal `FROM` lists and equal projection
lists yield equal results under every alias context and starting result,
whatever their other parts are. -/
theorem visitSelect_from_and_exprs_only (s1 s2 : Select) (c : String) (r : SQLParserResult)
    (hFrom : s1.From = s2.From) (hExprs : s1.SelectExprs = s2.SelectExprs) :
    visitSelect s1 c r = visitSelect s2 c r := by
  rw [visitSelect_eq, visitSelect_eq, hFrom, hExprs]

/-- C16 at `SELECT a FROM t WHERE b IN (SELECT c FROM u)` against
`SELECT a FROM t`: equal results, so table `u` and columns `b`, `c` are not
recorded. -/
theorem visitSelect_from_and_exprs_only_witness :
    visitSelect selectWhereSubquery "" NewSQLparserResult =
      visitSelect (simpleSelect [col "" "a"] [tbl "t" ""]) "" NewSQLparserResult ∧
    (visitSelect selectWhereSubquery "" NewSQLparserResult).tables =
      [{ schema := "", name := "t", aliasName := "" }] ∧
    (visitSelect selectWhereSubquery "" NewSQLparserResult).columns =
      [{ name := "a", aliasName := "", qualifier := "" }] :=
  ⟨visitSelect_from_and_exprs_only selectWhereSubquery (simpleSelect [col "" "a"] [tbl "t" ""])
    "" NewSQLparserResult rfl rfl, rfl, rfl⟩

/-- C20: `visitValExp` leaves the result as it is for every value expression,
so a `CASE` projection and a value-tuple projection record nothing, also when
the `ELSE` branch, the subject or the tuple members are column references;
`SELECT CASE WHEN a = 1 THEN b ELSE c END FROM t` yields table `t` and no
column, and a `CASE` with a column as subject and a tuple of two columns
record no column. -/
theorem visitValExp_unchanged (exp : Option Expr) (r : SQLParserResult) :
    visitValExp exp r = r ∧
    (∀ (expr : Option Expr) (whens : List When) (els : Option Expr) (As : String),
      visitExpr (SelectExpr.nonStarExpr (Expr.caseExpr expr whens els) As) r = r) ∧
    (∀ (vals : List Expr) (As : String),
      visitExpr (SelectExpr.nonStarExpr (Expr.valTuple vals) As) r = r) ∧
    Option.map SQLParserResult.columns (DoParser parseMore
        (emptyParser "SELECT CASE WHEN a = 1 THEN b ELSE c END FROM t")).result =
      some [] ∧
    Option.map SQLParserResult.tables (DoParser parseMore
        (emptyParser "SELECT CASE WHEN a = 1 THEN b ELSE c END FROM t")).result =
      some [{ schema := "", name := "t", aliasName := "" }] ∧
    (visitExpr (SelectExpr.nonStarExpr
        (Expr.caseExpr (some (Expr.colName { Name := "a", Qualifier := "" }))
          [When.mk (Expr.comparisonExpr "=" (Expr.colName { Name := "b", Qualifier := "" })
            (Expr.numVal "1")) (Expr.colName { Name := "c", Qualifier := "" })]
          (some (Expr.colName { Name := "d", Qualifier := "" }))) "")
        NewSQLparserResult).columns = [] ∧
    (visitExpr (SelectExpr.nonStarExpr
        (Expr.valTuple [Expr.colName { Name := "d", Qualifier := "" },
          Expr.colName { Name := "e", Qualifier := "" }]) "")
        NewSQLparserResult).columns = [] := by
  refine ⟨visitValExp_id exp r, ?_, ?_, rfl, rfl, rfl, rfl⟩
  · intro expr whens els As
    simp only [visitExpr, visitValExp_id]
  · intro vals As
    simp only [visitExpr, foldl_visitValExp]

/-! ## The logged walk -/

theorem child_extends {p q : List Nat} {j : Nat} (h : (p ++ [j]) <+: q) : p <+: q :=
  (List.prefix_append p [j]).trans h

theorem child_ne {p q : List Nat} {j : Nat} (h : (p ++ [j]) <+: q) : q ≠ p := by
  intro hq
  have hl := h.length_le
  rw [hq] at hl
  simp at hl

theorem child_index_unique {p q : List Nat} {i j : Nat} (h1 : (p ++ [i]) <+: q)
    (h2 : (p ++ [j]) <+: q) : i = j := by
  have h3 : (p ++ [i]) <+: (p ++ [j]) :=
    List.prefix_of_prefix_length_le h1 h2 (by simp)
  have h4 : p ++ [i] = p ++ [j] := h3.eq_of_length (by simp)
  simpa using h4

theorem logBelow_leaf (p : List Nat) : LogBelow p [p] :=
  ⟨List.nodup_singleton p, fun q hq => by rw [List.mem_singleton.mp hq]⟩

theorem logBelow_node1 (p : List Nat) (a : List (List Nat)) (ha : LogBelow (p ++ [0]) a) :
    LogBelow p (p :: a) := by
  refine ⟨List.nodup_cons.mpr ⟨fun hp => child_ne (ha.2 p hp) rfl, ha.1⟩, ?_⟩
  intro q hq
  rcases List.mem_cons.mp hq with h | h
  · rw [h]
  · exact child_extends (ha.2 q h)

theorem logBelow_append (p : List Nat) (i j : Nat) (hij : i ≠ j) (a b : List (List Nat))
    (ha : LogBelow (p ++ [i]) a) (hb : LogBelow (p ++ [j]) b) : (a ++ b).Nodup := by
  refine List.nodup_append.mpr ⟨ha.1, hb.1, ?_⟩
  intro q hqa hqb
  exact hij (child_index_unique (ha.2 q hqa) (hb.2 q hqb))

theorem logBelow_node2 (p : List Nat) (a b : List (List Nat)) (ha : LogBelow (p ++ [0]) a)
    (hb : LogBelow (p ++ [1]) b) : LogBelow p (p :: (a ++ b)) := by
  have hnd : (a ++ b).Nodup := logBelow_append p 0 1 (by decide) a b ha hb
  have hall : ∀ q ∈ a ++ b, ∃ j, (p ++ [j]) <+: q := by
    intro q hq
    rcases List.mem_append.mp hq with h | h
    · exact ⟨0, ha.2 q h⟩
    · exact ⟨1, hb.2 q h⟩
  refine ⟨List.nodup_cons.mpr ⟨fun hp => ?_, hnd⟩, ?_⟩
  · obtain ⟨j, hj⟩ := hall p hp
    exact child_ne hj rfl
  · intro q hq
    rcases List.mem_cons.mp hq with h | h
    · rw [h]
    · obtain ⟨j, hj⟩ := hall q h
      exact child_extends hj

theorem logItems_nil (p : List Nat) (i : Nat) : LogItems p i [] :=
  ⟨List.nodup_nil, fun q hq => by simp at hq⟩

theorem logItems_cons (p : List Nat) (i : Nat) (a b : List (List Nat))
    (ha : LogBelow (p ++ [i]) a) (hb : LogItems p (i + 1) b) : LogItems p i (a ++ b) := by
  refine ⟨List.nodup_append.mpr ⟨ha.1, hb.1, ?_⟩, ?_⟩
  · intro q hqa hqb
    obtain ⟨j, hj, hjq⟩ := hb.2 q hqb
    have := child_index_unique (ha.2 q hqa) hjq
    omega
  · intro q hq
    rcases List.mem_append.mp hq with h | h
    · exact ⟨i, Nat.le_refl i, ha.2 q h⟩
    · obtain ⟨j, hj, hjq⟩ := hb.2 q h
      exact ⟨j, by omega, hjq⟩

theorem logItems_below (p : List Nat) (i : Nat) (tr : List (List Nat)) (h : LogItems p i tr) :
    LogBelow p tr :=
  ⟨h.1, fun q hq => by
    obtain ⟨j, _, hjq⟩ := h.2 q hq
    exact child_extends hjq⟩

mutual

theorem visitExprLogged_spec : ∀ (e : SelectExpr) (p : List Nat),
    ∃ tr, LogBelow p tr ∧ ∀ r log, visitExprLogged e p (r, log) = (visitExpr e r, log ++ tr)
  | SelectExpr.nonStarExpr (Expr.funcExpr _ _ exprs) _, p => by
      obtain ⟨tr, htr, h⟩ := visitExprsLogged_spec exprs (p ++ [0]) 0
      refine ⟨p :: tr, logBelow_node1 p tr (logItems_below _ _ _ htr), ?_⟩
      intro r log
      simp only [visitExprLogged, visitExpr, h, List.append_assoc, List.singleton_append]
  | SelectExpr.starExpr _, p => ⟨[p], logBelow_leaf p, fun r log => by
      simp only [visitExprLogged]⟩
  | SelectExpr.nonStarExpr (Expr.colName _) _, p => ⟨[p], logBelow_leaf p, fun r log => by
      simp only [visitExprLogged]⟩
  | SelectExpr.nonStarExpr (Expr.valTuple _) _, p => ⟨[p], logBelow_leaf p, fun r log => by
      simp only [visitExprLogged]⟩
  | SelectExpr.nonStarExpr (Expr.caseExpr _ _ _) _, p => ⟨[p], logBelow_leaf p, fun r log => by
      simp only [visitExprLogged]⟩
  | SelectExpr.nonStarExpr (Expr.andExpr _ _) _, p => ⟨[p], logBelow_leaf p, fun r log => by
      simp only [visitExprLogged]⟩
  | SelectExpr.nonStarExpr (Expr.orExpr _ _) _, p => ⟨[p], logBelow_leaf p, fun r log => by
      simp only [visitExprLogged]⟩
  | SelectExpr.nonStarExpr (Expr.notExpr _) _, p => ⟨[p], logBelow_leaf p, fun r log => by
      simp only [visitExprLogged]⟩
  | SelectExpr.nonStarExpr (Expr.parenBoolExpr _) _, p => ⟨[p], logBelow_leaf p, fun r log => by
      simp only [visitExprLogged]⟩
  | SelectExpr.nonStarExpr (Expr.comparisonExpr _ _ _) _, p =>
      ⟨[p], logBelow_leaf p, fun r log => by simp only [visitExprLogged]⟩
  | SelectExpr.nonStarExpr (Expr.rangeCond _ _ _ _) _, p =>
      ⟨[p], logBelow_leaf p, fun r log => by simp only [visitExprLogged]⟩
  | SelectExpr.nonStarExpr (Expr.nullCheck _ _) _, p => ⟨[p], logBelow_leaf p, fun r log => by
      simp only [visitExprLogged]⟩
  | SelectExpr.nonStarExpr (Expr.existsExpr _) _, p => ⟨[p], logBelow_leaf p, fun r log => by
      simp only [visitExprLogged]⟩
  | SelectExpr.nonStarExpr (Expr.strVal _) _, p => ⟨[p], logBelow_leaf p, fun r log => by
      simp only [visitExprLogged]⟩
  | SelectExpr.nonStarExpr (Expr.numVal _) _, p => ⟨[p], logBelow_leaf p, fun r log => by
      simp only [visitExprLogged]⟩
  | SelectExpr.nonStarExpr (Expr.valArg _) _, p => ⟨[p], logBelow_leaf p, fun r log => by
      simp only [visitExprLogged]⟩
  | SelectExpr.nonStarExpr Expr.nullVal _, p => ⟨[p], logBelow_leaf p, fun r log => by
      simp only [visitExprLogged]⟩
  | SelectExpr.nonStarExpr (Expr.subquery _) _, p => ⟨[p], logBelow_leaf p, fun r log => by
      simp only [visitExprLogged]⟩
  | SelectExpr.nonStarExpr (Expr.listArg _) _, p => ⟨[p], logBelow_leaf p, fun r log => by
      simp only [visitExprLogged]⟩
  | SelectExpr.nonStarExpr (Expr.binaryExpr _ _ _) _, p => ⟨[p], logBelow_leaf p, fun r log => by
      simp only [visitExprLogged]⟩
  | SelectExpr.nonStarExpr (Expr.unaryExpr _ _) _, p => ⟨[p], logBelow_leaf p, fun r log => by
      simp only [visitExprLogged]⟩

theorem visitExprsLogged_spec : ∀ (es : List SelectExpr) (p : List Nat) (i : Nat),
    ∃ tr, LogItems p i tr ∧
      ∀ r log, visitExprsLogged es p i (r, log) = (visitExprs es r, log ++ tr)
  | [], p, i => ⟨[], logItems_nil p i, fun r log => by
      simp only [visitExprsLogged, visitExprs, List.append_nil]⟩
  | e :: es, p, i => by
      obtain ⟨a, ha, h1⟩ := visitExprLogged_spec e (p ++ [i])
      obtain ⟨b, hb, h2⟩ := visitExprsLogged_spec es p (i + 1)
      refine ⟨a ++ b, logItems_cons p i a b ha hb, ?_⟩
      intro r log
      simp only [visitExprsLogged, visitExprs, h1, h2, List.append_assoc]

end

mutual

theorem visitQueryLogged_spec : ∀ (s : SelectStatement) (p : List Nat),
    ∃ tr, LogBelow p tr ∧
      ∀ c r log, visitQueryLogged s c p (r, log) = (visitQuery s c r, log ++ tr)
  | SelectStatement.select s, p => by
      obtain ⟨a, ha, h⟩ := visitSelectLogged_spec s (p ++ [0])
      refine ⟨p :: a, logBelow_node1 p a ha, ?_⟩
      intro c r log
      simp only [visitQueryLogged, visitQuery, h, List.append_assoc, List.singleton_append]
  | SelectStatement.union u, p => by
      obtain ⟨a, ha, h⟩ := visitUnionLogged_spec u (p ++ [0])
      refine ⟨p :: a, logBelow_node1 p a ha, ?_⟩
      intro c r log
      simp only [visitQueryLogged, visitQuery, h, List.append_assoc, List.singleton_append]

theorem visitUnionLogged_spec : ∀ (u : Union) (p : List Nat),
    ∃ tr, LogBelow p tr ∧
      ∀ c r log, visitUnionLogged u c p (r, log) = (visitUnion u c r, log ++ tr)
  | Union.mk _ left right, p => by
      obtain ⟨a, ha, h1⟩ := visitQueryLogged_spec left (p ++ [0])
      obtain ⟨b, hb, h2⟩ := visitQueryLogged_spec right (p ++ [1])
      refine ⟨p :: (a ++ b), logBelow_node2 p a b ha hb, ?_⟩
      intro c r log
      simp only [visitUnionLogged, visitUnion, h1, h2, List.append_assoc,
        List.singleton_append, List.cons_append, List.nil_append]

theorem visitSelectLogged_spec : ∀ (s : Select) (p : List Nat),
    ∃ tr, LogBelow p tr ∧
      ∀ c r log, visitSelectLogged s c p (r, log) = (visitSelect s c r, log ++ tr)
  | Select.mk _ _ selectExprs From _ _ _ _ _ _, p => by
      obtain ⟨a, ha, h1⟩ := visitFormsLogged_spec From (p ++ [0]) 0
      obtain ⟨b, hb, h2⟩ := visitExprsLogged_spec selectExprs (p ++ [1]) 0
      refine ⟨p :: (a ++ b),
        logBelow_node2 p a b (logItems_below _ _ _ ha) (logItems_below _ _ _ hb), ?_⟩
      intro c r log
      simp only [visitSelectLogged, visitSelect, h1, h2, List.append_assoc,
        List.singleton_append, List.cons_append, List.nil_append]

theorem visitFormsLogged_spec : ∀ (ts : List TableExpr) (p : List Nat) (i : Nat),
    ∃ tr, LogItems p i tr ∧
      ∀ c r log, visitFormsLogged ts c p i (r, log) = (visitForms ts c r, log ++ tr)
  | [], p, i => ⟨[], logItems_nil p i, fun c r log => by
      simp only [visitFormsLogged, visitForms, List.append_nil]⟩
  | t :: ts, p, i => by
      obtain ⟨a, ha, h1⟩ := visitFormLogged_spec t (p ++ [i])
      obtain ⟨b, hb, h2⟩ := visitFormsLogged_spec ts p (i + 1)
      refine ⟨a ++ b, logItems_cons p i a b ha hb, ?_⟩
      intro c r log
      simp only [visitFormsLogged, visitForms, h1, h2, List.append_assoc]

theorem visitFormLogged_spec : ∀ (t : TableExpr) (p : List Nat),
    ∃ tr, LogBelow p tr ∧
      ∀ c r log, visitFormLogged t c p (r, log) = (visitForm t c r, log ++ tr)
  | TableExpr.parenTableExpr expr, p => by
      obtain ⟨a, ha, h⟩ := visitFormLogged_spec expr (p ++ [0])
      refine ⟨p :: a, logBelow_node1 p a ha, ?_⟩
      intro c r log
      simp only [visitFormLogged, visitForm, h, List.append_assoc, List.singleton_append]
  | TableExpr.joinTableExpr leftExpr _ rightExpr _, p => by
      obtain ⟨a, ha, h1⟩ := visitFormLogged_spec leftExpr (p ++ [0])
      obtain ⟨b, hb, h2⟩ := visitFormLogged_spec rightExpr (p ++ [1])
      refine ⟨p :: (a ++ b), logBelow_node2 p a b ha hb, ?_⟩
      intro c r log
      simp only [visitFormLogged, visitForm, h1, h2, List.append_assoc,
        List.singleton_append, List.cons_append, List.nil_append]
  | TableExpr.aliasedTableExpr expr As _, p => by
      obtain ⟨a, ha, h⟩ := visitTableLogged_spec expr (p ++ [0])
      refine ⟨p :: a, logBelow_node1 p a ha, ?_⟩
      intro c r log
      simp only [visitFormLogged, visitForm]
      by_cases hA : As = ""
      · simp only [hA, ne_eq, not_true_eq_false, if_false, h, List.append_assoc,
          List.singleton_append]
      · simp only [hA, ne_eq, not_false_eq_true, if_true, h, List.append_assoc,
          List.singleton_append]

theorem visitTableLogged_spec : ∀ (t : SimpleTableExpr) (p : List Nat),
    ∃ tr, LogBelow p tr ∧
      ∀ c r log, visitTableLogged t c p (r, log) = (visitTable t c r, log ++ tr)
  | SimpleTableExpr.tableName _, p => ⟨[p], logBelow_leaf p, fun c r log => by
      simp only [visitTableLogged, visitTable]⟩
  | SimpleTableExpr.subquery sel, p => by
      obtain ⟨a, ha, h⟩ := visitQueryLogged_spec sel (p ++ [0])
      refine ⟨p :: a, logBelow_node1 p a ha, ?_⟩
      intro c r log
      simp only [visitTableLogged, visitTable, h, List.append_assoc, List.singleton_append]

end

/-- C17: the walk is total, and written with a log of visited positions it
returns, for every statement, table expression, projection item, alias
context and starting result, the result of the walk together with a log in
which no position occurs twice: no node is visited twice by a routine.  Every
recursive call is made on a strict sub-node: the argument of each call is
smaller than the node of the calling routine.  On
`SELECT a.id, b.name FROM t1 a JOIN t2 b ON a.id=b.id` the log holds the eight
positions of the select, the join, its two tables with their names and the two
projection items. -/
theorem walk_visits_once (q : SelectStatement) (u : Union) (s : Select) (t : TableExpr)
    (st : SimpleTableExpr) (e : SelectExpr) (c : String) (r : SQLParserResult) :
    ((visitQueryLogged q c [] (r, [])).1 = visitQuery q c r ∧
      (visitQueryLogged q c [] (r, [])).2.Nodup) ∧
    ((visitUnionLogged u c [] (r, [])).1 = visitUnion u c r ∧
      (visitUnionLogged u c [] (r, [])).2.Nodup) ∧
    ((visitSelectLogged s c [] (r, [])).1 = visitSelect s c r ∧
      (visitSelectLogged s c [] (r, [])).2.Nodup) ∧
    ((visitFormLogged t c [] (r, [])).1 = visitForm t c r ∧
      (visitFormLogged t c [] (r, [])).2.Nodup) ∧
    ((visitTableLogged st c [] (r, [])).1 = visitTable st c r ∧
      (visitTableLogged st c [] (r, [])).2.Nodup) ∧
    ((visitExprLogged e [] (r, [])).1 = visitExpr e r ∧
      (visitExprLogged e [] (r, [])).2.Nodup) ∧
    (∀ x : Select, sizeOf x < sizeOf (SelectStatement.select x)) ∧
    (∀ x : Union, sizeOf x < sizeOf (SelectStatement.union x)) ∧
    (∀ (k : String) (l rt : SelectStatement),
      sizeOf l < sizeOf (Union.mk k l rt) ∧ sizeOf rt < sizeOf (Union.mk k l rt)) ∧
    (∀ (x : Select) (y : TableExpr), y ∈ x.From → sizeOf y < sizeOf x) ∧
    (∀ (x : Select) (y : SelectExpr), y ∈ x.SelectExprs → sizeOf y < sizeOf x) ∧
    (∀ x : TableExpr, sizeOf x < sizeOf (TableExpr.parenTableExpr x)) ∧
    (∀ (l rt : TableExpr) (j : String) (o : Option Expr),
      sizeOf l < sizeOf (TableExpr.joinTableExpr l j rt o) ∧
        sizeOf rt < sizeOf (TableExpr.joinTableExpr l j rt o)) ∧
    (∀ (x : SimpleTableExpr) (a : String) (h : Option IndexHints),
      sizeOf x < sizeOf (TableExpr.aliasedTableExpr x a h)) ∧
    (∀ x : SelectStatement, sizeOf x < sizeOf (SimpleTableExpr.subquery x)) ∧
    (∀ (n : String) (d : Bool) (xs : List SelectExpr) (a : String) (y : SelectExpr), y ∈ xs →
      sizeOf y < sizeOf (SelectExpr.nonStarExpr (Expr.funcExpr n d xs) a)) ∧
    (visitSelectLogged selectJoin "" [] (NewSQLparserResult, [])).2 =
      [[], [0, 0], [0, 0, 0], [0, 0, 0, 0], [0, 0, 1], [0, 0, 1, 0], [1, 0], [1, 1]] := by
  refine ⟨?_, ?_, ?_, ?_, ?_, ?_, ?_, ?_, ?_, ?_, ?_, ?_, ?_, ?_, ?_, ?_, rfl⟩
  · obtain ⟨tr, htr, h⟩ := visitQueryLogged_spec q []
    rw [h]
    exact ⟨rfl, by simpa using htr.1⟩
  · obtain ⟨tr, htr, h⟩ := visitUnionLogged_spec u []
    rw [h]
    exact ⟨rfl, by simpa using htr.1⟩
  · obtain ⟨tr, htr, h⟩ := visitSelectLogged_spec s []
    rw [h]
    exact ⟨rfl, by simpa using htr.1⟩
  · obtain ⟨tr, htr, h⟩ := visitFormLogged_spec t []
    rw [h]
    exact ⟨rfl, by simpa using htr.1⟩
  · obtain ⟨tr, htr, h⟩ := visitTableLogged_spec st []
    rw [h]
    exact ⟨rfl, by simpa using htr.1⟩
  · obtain ⟨tr, htr, h⟩ := visitExprLogged_spec e []
    rw [h]
    exact ⟨rfl, by simpa using htr.1⟩
  · intro x
    simp only [SelectStatement.select.sizeOf_spec]
    omega
  · intro x
    simp only [SelectStatement.union.sizeOf_spec]
    omega
  · intro k l rt
    simp only [Union.mk.sizeOf_spec]
    omega
  · intro x y hy
    cases x with
    | mk cm d es From w g hv o l lk =>
      simp only [Select.From] at hy
      have := List.sizeOf_lt_of_mem hy
      simp only [Select.mk.sizeOf_spec]
      omega
  · intro x y hy
    cases x with
    | mk cm d es From w g hv o l lk =>
      simp only [Select.SelectExprs] at hy
      have := List.sizeOf_lt_of_mem hy
      simp only [Select.mk.sizeOf_spec]
      omega
  · intro x
    simp only [TableExpr.parenTableExpr.sizeOf_spec]
    omega
  · intro l rt j o
    simp only [TableExpr.joinTableExpr.sizeOf_spec]
    omega
  · intro x a h
    simp only [TableExpr.aliasedTableExpr.sizeOf_spec]
    omega
  · intro x
    simp only [SimpleTableExpr.subquery.sizeOf_spec]
    omega
  · intro n d xs a y hy
    have := List.sizeOf_lt_of_mem hy
    simp only [SelectExpr.nonStarExpr.sizeOf_spec, Expr.funcExpr.sizeOf_spec]
    omega


/-! ## The last replacement of `cleanSql` -/

theorem matchSemicolonOrPlus_none (c : Char) (t : List Char)
    (h : matchSemicolonOrPlus (c :: t) = none) :
    c ≠ ';' ∧ ¬ (c = '(' ∧ t.take 2 = ['+', ')']) := by
  unfold matchSemicolonOrPlus at h
  by_cases h1 : c = ';'
  · simp [h1] at h
  · by_cases h2 : c = '(' ∧ t.take 2 = ['+', ')']
    · simp [h1, h2] at h
    · exact ⟨h1, h2⟩

theorem matchSemicolonOrPlus_some (c : Char) (t : List Char) (len : Nat)
    (h : matchSemicolonOrPlus (c :: t) = some len) :
    (c = ';' ∧ len = 1) ∨ (∃ t2, c = '(' ∧ t = '+' :: ')' :: t2 ∧ len = 3) := by
  unfold matchSemicolonOrPlus at h
  by_cases h1 : c = ';'
  · left
    simp [h1] at h
    exact ⟨h1, h.symm⟩
  · right
    by_cases h2 : c = '(' ∧ t.take 2 = ['+', ')']
    · simp [h1, h2] at h
      obtain ⟨hc, ht⟩ := h2
      refine ⟨t.drop 2, hc, ?_, h.symm⟩
      have := List.take_append_drop 2 t
      rw [ht] at this
      exact this.symm
    · simp [h1] at h
      exact absurd h.1 h2

theorem removeSemicolonOrPlus_semicolon (t : List Char) :
    removeSemicolonOrPlus (';' :: t) 0 = removeSemicolonOrPlus t 0 := by
  simp [removeSemicolonOrPlus, matchSemicolonOrPlus]

theorem removeSemicolonOrPlus_plus (t : List Char) :
    removeSemicolonOrPlus ('(' :: '+' :: ')' :: t) 0 = removeSemicolonOrPlus t 0 := by
  simp [removeSemicolonOrPlus, matchSemicolonOrPlus]

theorem removeSemicolonOrPlus_keep (c : Char) (t : List Char)
    (h : matchSemicolonOrPlus (c :: t) = none) :
    removeSemicolonOrPlus (c :: t) 0 = c :: removeSemicolonOrPlus t 0 := by
  simp [removeSemicolonOrPlus, h]

theorem removeSemicolonOrPlus_no_semicolon (l : List Char) (k : Nat) :
    ';' ∉ removeSemicolonOrPlus l k := by
  induction l generalizing k with
  | nil => cases k <;> simp [removeSemicolonOrPlus]
  | cons c t ih =>
      cases k with
      | succ k => simp only [removeSemicolonOrPlus]; exact ih k
      | zero =>
          simp only [removeSemicolonOrPlus]
          cases hm : matchSemicolonOrPlus (c :: t) with
          | some len => exact ih _
          | none =>
              simp only [List.mem_cons, not_or]
              exact ⟨fun h => (matchSemicolonOrPlus_none c t hm).1 h.symm, ih 0⟩

theorem removeSemicolonOrPlus_head (l : List Char) (x : Char) (rest : List Char)
    (h : removeSemicolonOrPlus l 0 = x :: rest) :
    (∃ t, l = ';' :: t) ∨ (∃ t, l = '(' :: '+' :: ')' :: t) ∨
      (∃ t, l = x :: t ∧ removeSemicolonOrPlus t 0 = rest) := by
  cases l with
  | nil => simp [removeSemicolonOrPlus] at h
  | cons c t =>
      cases hm : matchSemicolonOrPlus (c :: t) with
      | some len =>
          rcases matchSemicolonOrPlus_some c t len hm with ⟨hc, _⟩ | ⟨t2, hc, ht, _⟩
          · left
            exact ⟨t, by rw [hc]⟩
          · right
            left
            exact ⟨t2, by rw [hc, ht]⟩
      | none =>
          right
          right
          rw [removeSemicolonOrPlus_keep c t hm] at h
          simp only [List.cons.injEq] at h
          exact ⟨t, by rw [h.1], h.2⟩

/-- The last replacement leaves no `(+)` when no `(` and no `+` of the text
stands directly before a match. -/
theorem removeSemicolonOrPlus_no_plus : ∀ (n : Nat) (l : List Char), l.length ≤ n →
    ¬ ['(', ';'] <:+: l → ¬ ['+', ';'] <:+: l →
    ¬ ['(', '(', '+', ')'] <:+: l → ¬ ['+', '(', '+', ')'] <:+: l →
    ¬ ['(', '+', ')'] <:+: removeSemicolonOrPlus l 0
  | 0, l, hn, _, _, _, _ => by
      have : l = [] := List.eq_nil_of_length_eq_zero (Nat.le_zero.mp hn)
      subst this
      simp [removeSemicolonOrPlus]
  | n + 1, [], _, _, _, _, _ => by simp [removeSemicolonOrPlus]
  | n + 1, c :: t, hn, h0, h1, h2, h3 => by
      have h0t : ¬ ['(', ';'] <:+: t := fun h => h0 (List.infix_cons h)
      have h1t : ¬ ['+', ';'] <:+: t := fun h => h1 (List.infix_cons h)
      have h2t : ¬ ['(', '(', '+', ')'] <:+: t := fun h => h2 (List.infix_cons h)
      have h3t : ¬ ['+', '(', '+', ')'] <:+: t := fun h => h3 (List.infix_cons h)
      have hlen : t.length ≤ n := by simpa using hn
      cases hm : matchSemicolonOrPlus (c :: t) with
      | some len =>
          rcases matchSemicolonOrPlus_some c t len hm with ⟨hc, _⟩ | ⟨t2, hc, ht, _⟩
          · rw [hc, removeSemicolonOrPlus_semicolon]
            exact removeSemicolonOrPlus_no_plus n t hlen h0t h1t h2t h3t
          · rw [hc, ht, removeSemicolonOrPlus_plus]
            have hsub : t2 <:+ t := by rw [ht]; exact ⟨['+', ')'], rfl⟩
            refine removeSemicolonOrPlus_no_plus n t2 ?_ ?_ ?_ ?_ ?_
            · have := hsub.length_le; omega
            · exact fun h => h0t (h.trans hsub.isInfix)
            · exact fun h => h1t (h.trans hsub.isInfix)
            · exact fun h => h2t (h.trans hsub.isInfix)
            · exact fun h => h3t (h.trans hsub.isInfix)
      | none =>
          rw [removeSemicolonOrPlus_keep c t hm]
          intro hin
          rcases List.infix_cons_iff.mp hin with hpre | hin2
          · obtain ⟨tl, htl⟩ := hpre
            simp only [List.cons_append, List.nil_append, List.cons.injEq] at htl
            obtain ⟨hc, htl⟩ := htl
            rcases removeSemicolonOrPlus_head t '+' (')' :: tl) htl.symm with
              ⟨t2, ht⟩ | ⟨t2, ht⟩ | ⟨t2, ht, hr⟩
            · apply h0
              rw [← hc, ht]
              exact ⟨[], t2, rfl⟩
            · apply h2
              rw [← hc, ht]
              exact ⟨[], t2, rfl⟩
            · rcases removeSemicolonOrPlus_head t2 ')' tl hr with
                ⟨t3, ht3⟩ | ⟨t3, ht3⟩ | ⟨t3, ht3, _⟩
              · apply h1t
                rw [ht, ht3]
                exact ⟨[], t3, rfl⟩
              · apply h3t
                rw [ht, ht3]
                exact ⟨[], t3, rfl⟩
              · have := (matchSemicolonOrPlus_none c t hm).2
                apply this
                rw [ht, ht3]
                exact ⟨hc.symm, rfl⟩
          · exact removeSemicolonOrPlus_no_plus n t hlen h0t h1t h2t h3t hin2

/-- C18, as stated, fails: from `(;+)` the last replacement removes the `;`
and leaves `(+)`. -/
theorem cleanSql_plus_counterexample :
    (NewSQLParser "(;+)").sql = "(+)" ∧
    ['(', '+', ')'] <:+: (NewSQLParser "(;+)").sql.data :=
  ⟨rfl, ⟨[], [], rfl⟩⟩

/-- C18 (amended): the text `cleanSql` leaves contains no `;`; it contains no
`(+)` either when, in the text before the last replacement, no `(` and no `+`
stands directly before a `;` or a `(+)`.  The replacement is one pass from
left to right, and the characters around a removed match can form a new
`(+)`. -/
theorem cleanSql_no_semicolon (sqlString : String) :
    ';' ∉ (NewSQLParser sqlString).sql.data ∧
    (¬ ['(', ';'] <:+: textBeforeLastReplace sqlString (fun _ => none) →
      ¬ ['+', ';'] <:+: textBeforeLastReplace sqlString (fun _ => none) →
      ¬ ['(', '(', '+', ')'] <:+: textBeforeLastReplace sqlString (fun _ => none) →
      ¬ ['+', '(', '+', ')'] <:+: textBeforeLastReplace sqlString (fun _ => none) →
      ¬ ['(', '+', ')'] <:+: (NewSQLParser sqlString).sql.data) ∧
    (NewSQLParser "select a from t, u where t.id = u.id(+);").sql =
      "select a from t, u where t.id = u.id" := by
  refine ⟨?_, ?_, rfl⟩
  · simp only [NewSQLParser, cleanSql]
    exact removeSemicolonOrPlus_no_semicolon _ 0
  · intro h0 h1 h2 h3
    simp only [NewSQLParser, cleanSql]
    exact removeSemicolonOrPlus_no_plus _ _ (Nat.le_refl _) h0 h1 h2 h3


/-! ## The first replacement of `cleanSql` -/

theorem digitChar_value (k : Nat) (h : k < 10) : (Nat.digitChar k).toNat - 48 = k := by
  interval_cases k <;> rfl

theorem digitChar_not_chinese (k : Nat) (h : k < 10) : isChinese (Nat.digitChar k) = false := by
  interval_cases k <;> rfl

theorem decimalValue_append_singleton (pre : List Char) (d : Char) :
    decimalValue (pre ++ [d]) = 10 * decimalValue pre + (d.toNat - 48) := by
  simp [decimalValue, List.foldl_append]

theorem toDigitsCore_spec : ∀ (fuel n : Nat) (ds : List Char), n < fuel →
    ∃ pre, Nat.toDigitsCore 10 fuel n ds = pre ++ ds ∧ decimalValue pre = n ∧
      ∀ c ∈ pre, isChinese c = false
  | 0, n, ds, h => absurd h (Nat.not_lt_zero n)
  | fuel + 1, n, ds, h => by
      simp only [Nat.toDigitsCore]
      have hd := digitChar_not_chinese _ (Nat.mod_lt n (by decide : 10 > 0))
      by_cases h0 : n / 10 = 0
      · simp only [h0, if_true]
        refine ⟨[Nat.digitChar (n % 10)], rfl, ?_, ?_⟩
        · have hn : n < 10 := by omega
          simp only [decimalValue, List.foldl_cons, List.foldl_nil, Nat.mul_zero, Nat.zero_add]
          rw [digitChar_value _ (Nat.mod_lt n (by decide)), Nat.mod_eq_of_lt hn]
        · intro c hc
          rw [List.mem_singleton.mp hc]
          exact hd
      · simp only [h0, if_false]
        obtain ⟨pre, hpre, hval, hch⟩ := toDigitsCore_spec fuel (n / 10)
          (Nat.digitChar (n % 10) :: ds) (by omega)
        refine ⟨pre ++ [Nat.digitChar (n % 10)], ?_, ?_, ?_⟩
        · rw [hpre]; simp
        · rw [decimalValue_append_singleton, hval, digitChar_value _ (Nat.mod_lt n (by decide))]
          omega
        · intro c hc
          rcases List.mem_append.mp hc with h1 | h1
          · exact hch c h1
          · rw [List.mem_singleton.mp h1]
            exact hd

theorem toString_spec (n : Nat) :
    decimalValue (toString n).data = n ∧ ∀ c ∈ (toString n).data, isChinese c = false := by
  obtain ⟨pre, hpre, hval, hch⟩ := toDigitsCore_spec (n + 1) n [] (Nat.lt_succ_self n)
  have : (toString n).data = pre := by
    show (Nat.repr n).data = pre
    simp only [Nat.repr, Nat.toDigits, List.asString]
    rw [hpre, List.append_nil]
  rw [this]
  exact ⟨hval, hch⟩

theorem placeholder_data (n : Nat) :
    (placeholder n).data = ['_', '_', 'r'] ++ (toString n).data := by
  simp [placeholder, String.data_append]

theorem placeholder_injective (i j : Nat) (h : placeholder i = placeholder j) : i = j := by
  have h1 : (placeholder i).data = (placeholder j).data := by rw [h]
  rw [placeholder_data, placeholder_data] at h1
  have h2 := List.append_cancel_left h1
  have h3 := (toString_spec i).1
  rw [h2, (toString_spec j).1] at h3
  exact h3.symm

theorem placeholder_not_chinese (n : Nat) : ∀ c ∈ (placeholder n).data, isChinese c = false := by
  intro c hc
  rw [placeholder_data] at hc
  rcases List.mem_append.mp hc with h | h
  · simp only [List.mem_cons, List.mem_singleton, List.not_mem_nil, or_false] at h
    rcases h with h | h | h <;> rw [h] <;> rfl
  · exact (toString_spec n).2 c h

theorem replaceChinese_other (c : Char) (t : List Char) (inRun : Bool) (n : Nat)
    (m : String → Option String) (hc : isChinese c = false) :
    replaceChinese (c :: t) inRun n m =
      { text := c :: (replaceChinese t false n m).text,
        count := (replaceChinese t false n m).count,
        chineseFieldMap := (replaceChinese t false n m).chineseFieldMap } := by
  simp [replaceChinese, hc]

theorem replaceChinese_gap (g l : List Char) (n : Nat) (m : String → Option String)
    (hg : ∀ c ∈ g, isChinese c = false) :
    replaceChinese (g ++ l) false n m =
      { text := g ++ (replaceChinese l false n m).text,
        count := (replaceChinese l false n m).count,
        chineseFieldMap := (replaceChinese l false n m).chineseFieldMap } := by
  induction g with
  | nil => rfl
  | cons c g ih =>
      rw [List.cons_append, replaceChinese_other c _ false n m (hg c (List.mem_cons_self c g)),
        ih (fun x hx => hg x (List.mem_cons_of_mem c hx))]
      rfl

theorem replaceChinese_flag (l : List Char) (n : Nat) (m : String → Option String)
    (hl : ∀ c ∈ l.head?, isChinese c = false) :
    replaceChinese l true n m = replaceChinese l false n m := by
  cases l with
  | nil => rfl
  | cons c t =>
      have hc : isChinese c = false := hl c (by simp)
      rw [replaceChinese_other c t true n m hc, replaceChinese_other c t false n m hc]

theorem replaceChinese_run (r l : List Char) (n : Nat) (m : String → Option String)
    (hr : ∀ c ∈ r, isChinese c = true) :
    replaceChinese (r ++ l) true n m = replaceChinese l true n m := by
  induction r with
  | nil => rfl
  | cons c r ih =>
      rw [List.cons_append]
      have hc : isChinese c = true := hr c (List.mem_cons_self c r)
      simp only [replaceChinese, hc, if_true]
      exact ih (fun x hx => hr x (List.mem_cons_of_mem c hx))

theorem takeWhile_run (r l : List Char) (hr : ∀ c ∈ r, isChinese c = true)
    (hl : ∀ c ∈ l.head?, isChinese c = false) : (r ++ l).takeWhile isChinese = r := by
  induction r with
  | nil =>
      cases l with
      | nil => rfl
      | cons c t =>
          have hc : isChinese c = false := hl c (by simp)
          simp [List.takeWhile, hc]
  | cons c r ih =>
      have hc : isChinese c = true := hr c (List.mem_cons_self c r)
      rw [List.cons_append, List.takeWhile_cons, hc, if_pos rfl,
        ih (fun x hx => hr x (List.mem_cons_of_mem c hx))]

theorem replaceChinese_start (r l : List Char) (n : Nat) (m : String → Option String)
    (hne : r ≠ []) (hr : ∀ c ∈ r, isChinese c = true)
    (hl : ∀ c ∈ l.head?, isChinese c = false) :
    replaceChinese (r ++ l) false n m =
      { text := (placeholder n).data ++ (replaceChinese l false (n + 1)
          (fun k => if k = placeholder n then some (String.mk r) else m k)).text,
        count := (replaceChinese l false (n + 1)
          (fun k => if k = placeholder n then some (String.mk r) else m k)).count,
        chineseFieldMap := (replaceChinese l false (n + 1)
          (fun k => if k = placeholder n then some (String.mk r) else m k)).chineseFieldMap } := by
  cases r with
  | nil => exact absurd rfl hne
  | cons c r =>
      have hc : isChinese c = true := hr c (List.mem_cons_self c r)
      have htw : (c :: (r ++ l)).takeWhile isChinese = c :: r := by
        have := takeWhile_run (c :: r) l hr hl
        simpa using this
      rw [List.cons_append]
      simp only [replaceChinese, hc, if_true, Bool.false_eq_true, if_false, htw]
      rw [replaceChinese_run r l _ _ (fun x hx => hr x (List.mem_cons_of_mem c hx)),
        replaceChinese_flag l _ _ hl]

theorem unsplit_head (segs : List (List Char × List Char)) (tail : List Char)
    (hgap : ∀ p ∈ segs, ∀ c ∈ p.1, isChinese c = false) (hsep : ∀ p ∈ segs, p.1 ≠ [])
    (htail : ∀ c ∈ tail, isChinese c = false) :
    ∀ c ∈ (unsplit segs tail).head?, isChinese c = false := by
  intro c hc
  cases segs with
  | nil =>
      simp only [unsplit] at hc
      cases tail with
      | nil => simp at hc
      | cons x t =>
          simp only [List.head?_cons, Option.mem_def, Option.some.injEq] at hc
          rw [← hc]
          exact htail x (List.mem_cons_self x t)
  | cons p ps =>
      have hp := hsep p (List.mem_cons_self p ps)
      cases hg : p.1 with
      | nil => exact absurd hg hp
      | cons x g =>
          simp only [unsplit, hg, List.cons_append, List.head?_cons, Option.mem_def,
            Option.some.injEq] at hc
          rw [← hc]
          exact hgap p (List.mem_cons_self p ps) x (by rw [hg]; exact List.mem_cons_self x g)

theorem replaceChinese_unsplit : ∀ (segs : List (List Char × List Char)) (tail : List Char),
    IsRunSplit segs tail → ∀ (n : Nat) (m : String → Option String),
    replaceChinese (unsplit segs tail) false n m =
      { text := withPlaceholders segs n ++ tail, count := n + segs.length,
        chineseFieldMap := recordRuns segs n m }
  | [], tail, h, n, m => by
      have := replaceChinese_gap tail [] n m h.2.2
      simp only [List.append_nil] at this
      simp only [unsplit, withPlaceholders, recordRuns, List.nil_append, List.length_nil,
        Nat.add_zero]
      rw [this]
      simp [replaceChinese]
  | p :: ps, tail, h, n, m => by
      obtain ⟨hseg, hsep, htail⟩ := h
      have hp := hseg p (List.mem_cons_self p ps)
      have hps : IsRunSplit ps tail :=
        ⟨fun q hq => hseg q (List.mem_cons_of_mem p hq),
          fun q hq => hsep q (by simpa using List.mem_of_mem_tail hq), htail⟩
      have hhead := unsplit_head ps tail
        (fun q hq => (hseg q (List.mem_cons_of_mem p hq)).1)
        (fun q hq => hsep q (by simpa using hq)) htail
      simp only [unsplit, List.append_assoc]
      rw [replaceChinese_gap p.1 _ n m hp.1,
        replaceChinese_start p.2 _ n m hp.2.1 hp.2.2 hhead,
        replaceChinese_unsplit ps tail hps (n + 1) _]
      simp only [withPlaceholders, recordRuns, List.append_assoc, List.length_cons,
        ChineseScan.mk.injEq, true_and, and_true]
      omega

theorem recordRuns_other : ∀ (segs : List (List Char × List Char)) (n : Nat)
    (m : String → Option String) (k : String),
    (∀ i, i < segs.length → k ≠ placeholder (n + i)) → recordRuns segs n m k = m k
  | [], _, _, _, _ => rfl
  | p :: ps, n, m, k, h => by
      simp only [recordRuns]
      rw [recordRuns_other ps (n + 1) _ k (fun i hi => by
        have := h (i + 1) (by simpa using hi)
        rwa [Nat.add_assoc, Nat.add_comm 1 i])]
      have h0 := h 0 (by simp)
      simp only [Nat.add_zero] at h0
      simp [h0]

theorem recordRuns_lookup : ∀ (segs : List (List Char × List Char)) (n : Nat)
    (m : String → Option String) (i : Nat),
    (∀ j, m (placeholder (n + j)) = none) →
    recordRuns segs n m (placeholder (n + i)) = (segs[i]?).map (fun p => String.mk p.2)
  | [], n, m, i, hm => by simp [recordRuns, hm]
  | p :: ps, n, m, 0, hm => by
      simp only [recordRuns, Nat.add_zero, List.getElem?_cons_zero, Option.map_some']
      rw [recordRuns_other ps (n + 1) _ (placeholder n) (fun i _ h => by
        have := placeholder_injective _ _ h
        omega)]
      simp
  | p :: ps, n, m, i + 1, hm => by
      simp only [recordRuns, List.getElem?_cons_succ]
      have := recordRuns_lookup ps (n + 1)
        (fun k => if k = placeholder n then some (String.mk p.2) else m k) i (fun j => by
          have hne : placeholder (n + 1 + j) ≠ placeholder n := fun h => by
            have := placeholder_injective _ _ h
            omega
          simp only [hne, if_false]
          have := hm (1 + j)
          rwa [← Nat.add_assoc] at this)
      rw [← this]
      congr 2
      omega

theorem recordRuns_keys : ∀ (segs : List (List Char × List Char)) (n : Nat)
    (m : String → Option String) (k : String),
    recordRuns segs n m k ≠ none → m k ≠ none ∨ ∃ i, i < segs.length ∧ k = placeholder (n + i)
  | [], _, _, _, h => Or.inl h
  | p :: ps, n, m, k, h => by
      simp only [recordRuns] at h
      rcases recordRuns_keys ps (n + 1) _ k h with h1 | ⟨i, hi, hk⟩
      · by_cases hk : k = placeholder n
        · exact Or.inr ⟨0, by simp, by simpa using hk⟩
        · simp only [hk, if_false] at h1
          exact Or.inl h1
      · refine Or.inr ⟨i + 1, by simpa using hi, ?_⟩
        rw [hk]
        congr 1
        omega

theorem replaceChinese_not_chinese : ∀ (l : List Char) (inRun : Bool) (n : Nat)
    (m : String → Option String), ∀ c ∈ (replaceChinese l inRun n m).text, isChinese c = false
  | [], _, _, _ => by simp [replaceChinese]
  | x :: t, inRun, n, m => by
      intro c hc
      by_cases hx : isChinese x = true
      · cases inRun with
        | true =>
            simp only [replaceChinese, hx, if_true] at hc
            exact replaceChinese_not_chinese t true n m c hc
        | false =>
            simp only [replaceChinese, hx, if_true, Bool.false_eq_true, if_false] at hc
            rcases List.mem_append.mp hc with h | h
            · exact placeholder_not_chinese n c h
            · exact replaceChinese_not_chinese t true _ _ c h
      · have hx2 : isChinese x = false := by simpa using hx
        rw [replaceChinese_other x t inRun n m hx2] at hc
        rcases List.mem_cons.mp hc with h | h
        · rw [h]; exact hx2
        · exact replaceChinese_not_chinese t false n m c h

theorem replaceAs_subset : ∀ (l : List Char) (k : Nat), ∀ c ∈ replaceAs l k, c ∈ l
  | [], k => by cases k <;> simp [replaceAs]
  | x :: t, k + 1 => by
      intro c hc
      simp only [replaceAs] at hc
      by_cases hq : isQuote x = true
      · simp only [hq, if_true] at hc
        exact List.mem_cons_of_mem x (replaceAs_subset t k c hc)
      · simp only [hq, if_false] at hc
        rcases List.mem_cons.mp hc with h | h
        · rw [h]; exact List.mem_cons_self x t
        · exact List.mem_cons_of_mem x (replaceAs_subset t k c h)
  | x :: t, 0 => by
      intro c hc
      simp only [replaceAs] at hc
      cases hm : matchAs (x :: t) with
      | some len =>
          simp only [hm] at hc
          rcases List.mem_cons.mp hc with h | h
          · rw [h]; exact List.mem_cons_self x t
          · exact List.mem_cons_of_mem x (replaceAs_subset t _ c h)
      | none =>
          simp only [hm] at hc
          rcases List.mem_cons.mp hc with h | h
          · rw [h]; exact List.mem_cons_self x t
          · exact List.mem_cons_of_mem x (replaceAs_subset t 0 c h)

theorem removeSemicolonOrPlus_subset : ∀ (l : List Char) (k : Nat),
    ∀ c ∈ removeSemicolonOrPlus l k, c ∈ l
  | [], k => by cases k <;> simp [removeSemicolonOrPlus]
  | x :: t, k + 1 => by
      intro c hc
      simp only [removeSemicolonOrPlus] at hc
      exact List.mem_cons_of_mem x (removeSemicolonOrPlus_subset t k c hc)
  | x :: t, 0 => by
      intro c hc
      simp only [removeSemicolonOrPlus] at hc
      cases hm : matchSemicolonOrPlus (x :: t) with
      | some len =>
          simp only [hm] at hc
          exact List.mem_cons_of_mem x (removeSemicolonOrPlus_subset t _ c hc)
      | none =>
          simp only [hm] at hc
          rcases List.mem_cons.mp hc with h | h
          · rw [h]; exact List.mem_cons_self x t
          · exact List.mem_cons_of_mem x (removeSemicolonOrPlus_subset t 0 c h)

theorem cleanSql_not_chinese (sqlString : String) :
    ∀ c ∈ (NewSQLParser sqlString).sql.data, isChinese c = false := by
  intro c hc
  simp only [NewSQLParser, cleanSql, textBeforeLastReplace] at hc
  exact replaceChinese_not_chinese _ _ _ _ c
    (replaceAs_subset _ _ c (removeSemicolonOrPlus_subset _ _ c hc))

theorem exists_runSplit : ∀ (l : List Char),
    ∃ segs tail, IsRunSplit segs tail ∧ unsplit segs tail = l
  | [] => ⟨[], [], ⟨by simp, by simp, by simp⟩, rfl⟩
  | c :: t => by
      obtain ⟨segs, tail, ⟨hseg, hsep, htail⟩, hun⟩ := exists_runSplit t
      by_cases hc : isChinese c = true
      · cases segs with
        | nil =>
            refine ⟨[([], [c])], tail, ⟨?_, by simp, htail⟩, ?_⟩
            · intro p hp
              rw [List.mem_singleton.mp hp]
              simp [hc]
            · simp only [unsplit] at hun ⊢
              simp [hun]
        | cons p ps =>
            have hp := hseg p (List.mem_cons_self p ps)
            by_cases hg : p.1 = []
            · refine ⟨([], c :: p.2) :: ps, tail, ⟨?_, hsep, htail⟩, ?_⟩
              · intro q hq
                rcases List.mem_cons.mp hq with h | h
                · rw [h]
                  refine ⟨by simp, by simp, ?_⟩
                  intro x hx
                  rcases List.mem_cons.mp hx with h1 | h1
                  · rw [h1]; exact hc
                  · exact hp.2.2 x h1
                · exact hseg q (List.mem_cons_of_mem p h)
              · simp only [unsplit, hg, List.nil_append, List.cons_append] at hun ⊢
                rw [hun]
            · refine ⟨([], [c]) :: p :: ps, tail, ⟨?_, ?_, htail⟩, ?_⟩
              · intro q hq
                rcases List.mem_cons.mp hq with h | h
                · rw [h]
                  simp [hc]
                · exact hseg q h
              · intro q hq
                simp only [List.tail_cons] at hq hsep
                rcases List.mem_cons.mp hq with h | h
                · rw [h]; exact hg
                · exact hsep q h
              · simp only [unsplit] at hun ⊢
                simp [hun]
      · have hc2 : isChinese c = false := by simpa using hc
        cases segs with
        | nil =>
            refine ⟨[], c :: tail, ⟨by simp, by simp, ?_⟩, ?_⟩
            · intro x hx
              rcases List.mem_cons.mp hx with h | h
              · rw [h]; exact hc2
              · exact htail x h
            · simp only [unsplit] at hun ⊢
              rw [hun]
        | cons p ps =>
            have hp := hseg p (List.mem_cons_self p ps)
            refine ⟨(c :: p.1, p.2) :: ps, tail, ⟨?_, hsep, htail⟩, ?_⟩
            · intro q hq
              rcases List.mem_cons.mp hq with h | h
              · rw [h]
                refine ⟨?_, hp.2.1, hp.2.2⟩
                intro x hx
                rcases List.mem_cons.mp hx with h1 | h1
                · rw [h1]; exact hc2
                · exact hp.1 x h1
              · exact hseg q (List.mem_cons_of_mem p h)
            · simp only [unsplit, List.cons_append] at hun ⊢
              rw [hun]

/-- C19: every input text splits into its maximal runs of characters of
U+4E00..U+9FA5 with the gaps between them, and for every such split with `k`
runs `cleanSql` replaces the run of index `i` by the placeholder `__r<i>`,
the parser text being what the two later replacements make of that text;
the map holds the run of index `i` under `__r<i>` for `i < k` and nothing
under any other key, so exactly `k` entries, the placeholders of different
indices being different; and the cleaned text holds no character of the
range.  On a text with the same run twice the two occurrences get `__r0` and
`__r1`. -/
theorem cleanSql_chinese_runs (sqlString : String) :
    (∃ segs tail, IsRunSplit segs tail ∧ unsplit segs tail = sqlString.data) ∧
    (∀ segs tail, IsRunSplit segs tail → unsplit segs tail = sqlString.data →
      (replaceChinese sqlString.data false 0 (fun _ => none)).text =
        withPlaceholders segs 0 ++ tail ∧
      (NewSQLParser sqlString).sql = String.mk (removeSemicolonOrPlus
        (replaceAs (withPlaceholders segs 0 ++ tail) 0) 0) ∧
      (∀ i, (NewSQLParser sqlString).chineseFieldMap (placeholder i) =
        (segs[i]?).map (fun p => String.mk p.2)) ∧
      (∀ k, (NewSQLParser sqlString).chineseFieldMap k ≠ none →
        ∃ i, i < segs.length ∧ k = placeholder i)) ∧
    (∀ i j, placeholder i = placeholder j → i = j) ∧
    (∀ c ∈ (NewSQLParser sqlString).sql.data, isChinese c = false) ∧
    ((NewSQLParser "select * from 表 a, 表 b").sql = "select * from __r0 a, __r1 b" ∧
      (NewSQLParser "select * from 表 a, 表 b").chineseFieldMap "__r0" = some "表" ∧
      (NewSQLParser "select * from 表 a, 表 b").chineseFieldMap "__r1" = some "表" ∧
      (NewSQLParser "select * from 表 a, 表 b").chineseFieldMap "__r2" = none) := by
  refine ⟨exists_runSplit _, ?_, placeholder_injective, cleanSql_not_chinese sqlString,
    ⟨rfl, rfl, rfl, rfl⟩⟩
  intro segs tail hsplit hun
  have hrep := replaceChinese_unsplit segs tail hsplit 0 (fun _ => none)
  rw [hun] at hrep
  refine ⟨by rw [hrep], ?_, ?_, ?_⟩
  · simp only [NewSQLParser, cleanSql, textBeforeLastReplace, hrep]
  · intro i
    simp only [NewSQLParser, cleanSql, hrep]
    have := recordRuns_lookup segs 0 (fun _ => none) i (fun _ => rfl)
    simpa using this
  · intro k hk
    simp only [NewSQLParser, cleanSql, hrep] at hk
    rcases recordRuns_keys segs 0 (fun _ => none) k hk with h | ⟨i, hi, hki⟩
    · exact absurd rfl h
    · exact ⟨i, hi, by simpa using hki⟩


end SqlParser
